import Mathlib

/-!
Shallow embedding of `nio/encryption.py` (the Olm/Megolm session-management
core of matrix-nio) together with proofs about the claims of its
specification.

Conventions of the embedding:
* Python strings are `String`; Python dicts are association lists with
  first-match lookup and first-match in-place update (`alookup` / `aset`),
  which matches dict semantics because keys are unique in every dict the
  source builds.
* Stateful methods become functions `σ → ... → σ × Except PyError α`: the
  returned state carries exactly the mutations performed before any `raise`,
  and the `Except` value is the Python return value or the propagated
  exception.
* The opaque cryptographic library (python-olm) is a record of functions
  (`CryptoLib`) plus behaviour functions stored inside `Session`; pickling
  is modelled as the identity on the underlying value, which captures the
  contract `from_pickle (pickle x) = x` with a stable session id.
* `list.sort(key=lambda x: x.session.id)` is a stable sort by the session id
  string; it is modelled with `List.insertionSort`, which is stable, on the
  same order.
-/

namespace NioEnc

/-- Exceptions raised (or library error kinds observed) by the source. -/
inductive PyError where
  | olmTrustError
  | encryptionError
  | verificationError
  | olmSessionError
  | keyError
  | typeError
  deriving DecidableEq, Repr

/-- `Ed25519Key` from the source: the only key kind the store materializes
(`matrix-ed25519` lines).  Equality is field-wise, as in `Ed25519Key.__eq__`. -/
structure Ed25519Key where
  user_id : String
  device_id : String
  key : String
  deriving DecidableEq, Repr

/-- `KeyStore`: in-memory entry list plus the persisted file content.
The file is modelled as the list of keys its lines encode. -/
structure KeyStore where
  entries : List Ed25519Key
  file : List Ed25519Key
  deriving DecidableEq, Repr

def KeyStore.get_key (s : KeyStore) (user_id device_id : String) :
    Option Ed25519Key :=
  s.entries.find? (fun e => user_id == e.user_id && device_id == e.device_id)

/-- `KeyStore._save`: rewrite the whole file from the entries. -/
def KeyStore.save (s : KeyStore) : KeyStore :=
  { s with file := s.entries }

/-- `KeyStore.add`.  On a (user, device) hit with a different fingerprint it
raises `OlmTrustError` before mutating anything; otherwise it appends and
saves (the `@_save_store` decorator saves again, which is idempotent here).
The source also rechecks user/device equality and the key type; the former
is implied by `get_key` and the latter is trivial because only
`Ed25519Key` exists in the store. -/
def KeyStore.add (s : KeyStore) (k : Ed25519Key) :
    KeyStore × Except PyError Bool :=
  match s.get_key k.user_id k.device_id with
  | some existing_key =>
    if existing_key.key != k.key then
      (s, .error .olmTrustError)
    else
      (KeyStore.save { s with entries := s.entries ++ [k] }, .ok true)
  | none =>
      (KeyStore.save { s with entries := s.entries ++ [k] }, .ok true)

/-- `KeyStore.check`: full-equality membership. -/
def KeyStore.check (s : KeyStore) (k : Ed25519Key) : Bool :=
  s.entries.contains k

/-- `OlmDevice`.  The source stores a key dict; every device the claims
touch carries both an `ed25519` and a `curve25519` key (the data model of
the store), so the dict is modelled by the two fields. -/
structure OlmDevice where
  user_id : String
  id : String
  ed25519 : String
  curve25519 : String
  deriving DecidableEq, Repr

/-- `Key.from_olmdevice`: extract the Ed25519 fingerprint key of a device. -/
def Key.from_olmdevice (d : OlmDevice) : Option Ed25519Key :=
  some { user_id := d.user_id, device_id := d.id, key := d.ed25519 }

/-- `DeviceStore`: device list plus the fingerprint `KeyStore`. -/
structure DeviceStore where
  entries : List OlmDevice
  fingerprint_store : KeyStore
  deriving DecidableEq, Repr

def DeviceStore.user_devices (d : DeviceStore) (user_id : String) :
    List OlmDevice :=
  d.entries.filter (fun e => user_id == e.user_id)

/-- `DeviceStore.verify_key`: locate the device by (user, device); a missing
device is a `KeyError` (the lookup error), a found device answers whether
its ed25519 key equals the queried one. -/
def DeviceStore.verify_key (d : DeviceStore) (k : Ed25519Key) :
    Except PyError Bool :=
  match d.entries.find? (fun e => k.user_id == e.user_id && k.device_id == e.id) with
  | some entry => .ok (entry.ed25519 == k.key)
  | none => .error .keyError

/-- Olm messages: pre-key handshake messages vs normal ratchet messages,
with an opaque ciphertext body. -/
inductive OlmMsg where
  | preKey (body : String)
  | normal (body : String)
  deriving DecidableEq, Repr

/-- The opaque pairwise `olm.Session`: a stable id plus its behaviour on
messages (`matches`, `decrypt`) and plaintexts (`encrypt`, returning whether
the produced message is a pre-key message, and the ciphertext). -/
structure Session where
  sid : String
  matchesMsg : OlmMsg → Bool
  decryptMsg : OlmMsg → Except PyError String
  encryptMsg : String → Bool × String

/-- `OlmSession`: a pairwise session annotated with peer user, device and
identity key. -/
structure OlmSession where
  user_id : String
  device_id : String
  identity_key : String
  session : Session

/-- `OlmSession.__eq__`: equality over user, device, identity key and the
underlying session id. -/
def olmSessionEq (a b : OlmSession) : Bool :=
  a.user_id == b.user_id && a.device_id == b.device_id &&
    a.identity_key == b.identity_key && a.session.sid == b.session.sid

/-- First-match lookup in an association list — Python dict read. -/
def alookup {β : Type} : List (String × β) → String → Option β
  | [], _ => none
  | e :: rest, k => if e.1 = k then some e.2 else alookup rest k

/-- First-match update / append in an association list — Python dict write. -/
def aset {β : Type} : List (String × β) → String → β → List (String × β)
  | [], k, v => [(k, v)]
  | e :: rest, k, v => if e.1 = k then (k, v) :: rest else e :: aset rest k v

/-- `SessionStore`: `defaultdict(list)` from peer identity key to the list of
sessions for that peer. -/
structure SessionStore where
  entries : List (String × List OlmSession)

/-- Reading `self._entries[key]` of the defaultdict: missing keys read as `[]`. -/
def SessionStore.lookup (st : SessionStore) (k : String) : List OlmSession :=
  (alookup st.entries k).getD []

/-- Lexicographic code-point comparison of strings (as lists of characters):
the order Python's `sort` uses on `str` keys. -/
def lexLe : List Char → List Char → Bool
  | [], _ => true
  | _ :: _, [] => false
  | a :: as, b :: bs =>
    if a.toNat < b.toNat then true
    else if b.toNat < a.toNat then false
    else lexLe as bs

theorem lexLe_refl : ∀ as : List Char, lexLe as as = true
  | [] => rfl
  | a :: as => by simp [lexLe, lexLe_refl as]

theorem lexLe_total : ∀ as bs : List Char,
    lexLe as bs = true ∨ lexLe bs as = true
  | [], _ => Or.inl rfl
  | _ :: _, [] => Or.inr rfl
  | a :: as, b :: bs => by
    rcases Nat.lt_trichotomy a.toNat b.toNat with h | h | h
    · left; simp [lexLe, h]
    · rcases lexLe_total as bs with h2 | h2
      · left; simp [lexLe, h, h2]
      · right; simp [lexLe, h.symm, h2]
    · right; simp [lexLe, h]

theorem lexLe_trans (as : List Char) : ∀ bs cs : List Char,
    lexLe as bs = true → lexLe bs cs = true → lexLe as cs = true := by
  induction as with
  | nil => intro bs cs _ _; rfl
  | cons a as ih =>
    intro bs cs h1 h2
    cases bs with
    | nil => simp [lexLe] at h1
    | cons b bs =>
      cases cs with
      | nil => simp [lexLe] at h2
      | cons c cs =>
        rcases Nat.lt_trichotomy a.toNat b.toNat with hab | hab | hab
        · rcases Nat.lt_trichotomy b.toNat c.toNat with hbc | hbc | hbc
          · simp [lexLe, Nat.lt_trans hab hbc]
          · simp [lexLe, hbc ▸ hab]
          · simp [lexLe, Nat.lt_asymm hbc, hbc] at h2
        · rcases Nat.lt_trichotomy b.toNat c.toNat with hbc | hbc | hbc
          · simp [lexLe, hab ▸ hbc]
          · simp only [lexLe, hab, Nat.lt_irrefl, if_false] at h1
            simp only [lexLe, hbc, Nat.lt_irrefl, if_false] at h2
            have hac : a.toNat = c.toNat := hab.trans hbc
            simp only [lexLe, hac, Nat.lt_irrefl, if_false]
            exact ih bs cs h1 h2
          · simp [lexLe, Nat.lt_asymm hbc, hbc] at h2
        · simp [lexLe, Nat.lt_asymm hab, hab] at h1

/-- The sort order used by `SessionStore.add`: ascending underlying session
id, compared as Python compares the id strings. -/
def sessionOrder (a b : OlmSession) : Prop :=
  lexLe a.session.sid.data b.session.sid.data = true

instance : DecidableRel sessionOrder := fun a b =>
  instDecidableEqBool (lexLe a.session.sid.data b.session.sid.data) true

instance : IsTotal OlmSession sessionOrder :=
  ⟨fun a b => lexLe_total a.session.sid.data b.session.sid.data⟩

instance : IsTrans OlmSession sessionOrder :=
  ⟨fun _ _ _ h1 h2 => lexLe_trans _ _ _ h1 h2⟩

/-- `SessionStore.add`: reject duplicates by `OlmSession` equality, else
append and (stably) re-sort the peer's list by session id. -/
def SessionStore.add (st : SessionStore) (s : OlmSession) :
    SessionStore × Bool :=
  if (st.lookup s.identity_key).any (fun x => olmSessionEq s x) then
    (st, false)
  else
    (⟨aset st.entries s.identity_key
        (List.insertionSort sessionOrder (st.lookup s.identity_key ++ [s]))⟩,
      true)

/-- `SessionStore.get`: the first session of the peer's list, or none. -/
def SessionStore.get (st : SessionStore) (k : String) : Option OlmSession :=
  (st.lookup k).head?

/-- Iteration over the store: all sessions of all peers, in store order. -/
def SessionStore.all (st : SessionStore) : List OlmSession :=
  st.entries.flatMap (fun e => e.2)

/-- The opaque serialized form of an inbound Megolm session
(`InboundGroupSession.pickle()`): the cryptographic state, from which the
stable id is recoverable. -/
structure MegolmPickle where
  sid : String
  session_key : String
  deriving DecidableEq, Repr

/-- An inbound Megolm session object as stored in
`inbound_group_sessions[room_id][session_id]`.  Objects built by
`create_group_session` are `InGroupSession`s and carry the sender metadata;
objects rebuilt by `load` via `InboundGroupSession.from_pickle` do not
(pickling only keeps the cryptographic state), hence the `Option` fields. -/
structure InboundGroupSessionObj where
  sid : String
  session_key : String
  sender_key : Option String
  sender_fp_key : Option String
  room_id_attr : Option String
  deriving DecidableEq, Repr

def InboundGroupSessionObj.pickle (s : InboundGroupSessionObj) : MegolmPickle :=
  ⟨s.sid, s.session_key⟩

/-- `InboundGroupSession.from_pickle`: restores the cryptographic state only. -/
def InboundGroupSession.from_pickle (p : MegolmPickle) : InboundGroupSessionObj :=
  { sid := p.sid, session_key := p.session_key,
    sender_key := none, sender_fp_key := none, room_id_attr := none }

/-- The nested dict `inbound_group_sessions : room_id → session_id → session`. -/
def IGS : Type := List (String × List (String × InboundGroupSessionObj))

def igsGet (m : IGS) (room sid : String) : Option InboundGroupSessionObj :=
  match alookup m room with
  | none => none
  | some inner => alookup inner sid

/-- Write `m[room][sid] = v` with `defaultdict(dict)` semantics: a missing
room reads as the empty dict before the assignment. -/
def igsSet (m : IGS) (room sid : String) (v : InboundGroupSessionObj) : IGS :=
  aset m room (aset ((alookup m room).getD []) sid v)

/-- The `(room_id, session_id)` pairs currently installed. -/
def igsPairs (m : IGS) : List (String × String) :=
  m.flatMap (fun e => e.2.map (fun x => (e.1, x.1)))

/-- The opaque outbound Megolm session: stable id, distributable session
key, and the current ratchet index. -/
structure OutboundGroupSession where
  sid : String
  session_key : String
  message_index : Nat
  deriving DecidableEq, Repr

/-- The content object of an `m.room_key` payload. -/
structure PayloadContent where
  algorithm : String
  room_id : String
  session_id : String
  session_key : String
  chain_index : Nat
  deriving DecidableEq, Repr

/-- A parsed olm-event payload, with the fields the olm-event schema
requires. -/
structure Payload where
  type : String
  sender : String
  sender_device : String
  recipient : String
  recipient_keys_ed25519 : String
  keys_ed25519 : String
  content : PayloadContent
  deriving DecidableEq, Repr

/-- `olm.Account`: identity keys plus the one-time key pool; the pickle is
the value itself (opaque round-tripping serialization). -/
structure Account where
  ed25519 : String
  curve25519 : String
  one_time_keys : List String
  deriving DecidableEq, Repr

/-- The behaviour of the opaque cryptographic library and of the JSON layer,
bundled so that every theorem quantifies over it. -/
structure CryptoLib where
  /-- id derived from a Megolm session key (`InboundGroupSession(key).id`). -/
  groupId : String → String
  /-- `InboundSession(account, message, sender_key)` construction. -/
  newInbound : Account → String → OlmMsg → Except PyError Session
  /-- `account.remove_one_time_keys(session)`. -/
  removeOneTimeKeys : Account → Session → Account
  /-- `json.loads` on a decrypted plaintext. -/
  parse : String → Option Payload
  /-- `validate_json(payload, Schemas.olm_event)` outcome. -/
  validOlmEvent : Payload → Bool
  /-- `validate_json(payload, Schemas.room_key_event)` outcome. -/
  validRoomKeyEvent : Payload → Bool
  /-- `Olm._to_json` of a payload dict. -/
  payloadToJson : Payload → String
  /-- `Olm._to_json` of a plaintext dict. -/
  dictToJson : List (String × String) → String
  /-- Megolm ratchet encryption at (session key, message index). -/
  megolmCipher : String → Nat → String → String

/-- `OutboundGroupSession.encrypt`: produce the ciphertext and advance the
ratchet index; the session id is stable. -/
def OutboundGroupSession.encrypt (lib : CryptoLib) (s : OutboundGroupSession)
    (plaintext : String) : String × OutboundGroupSession :=
  (lib.megolmCipher s.session_key s.message_index plaintext,
    { s with message_index := s.message_index + 1 })

/-- A row of the `olmsessions` table:
`(user, device_id, identity_key, session_id, pickle)`. -/
structure SessionRow where
  user : String
  device_id : String
  identity_key : String
  session_id : String
  pickle : Session

/-- A row of the `inbound_group_sessions` table. -/
structure GroupRow where
  room_id : String
  session_id : String
  pickle : MegolmPickle
  deriving DecidableEq, Repr

/-- The sqlite database of §4.4: `olmaccount`, `olmsessions`,
`inbound_group_sessions`.  Pickles are the opaque values themselves. -/
structure Database where
  olmaccount : List (String × Account)
  olmsessions : List SessionRow
  inbound_group_sessions : List GroupRow

/-- The engine (`Olm`) state: everything `Olm.__init__` sets up. -/
structure OlmState where
  user_id : String
  device_id : String
  shared_sessions : List String
  devices : DeviceStore
  session_store : SessionStore
  inbound_group_sessions : IGS
  outbound_group_sessions : List (String × OutboundGroupSession)
  account : Account
  trust_db : KeyStore
  database : Database
  olm_queue : List (String × String × Payload)

/-- `Olm.device_trusted`: fingerprint membership in `trust_db`. -/
def Olm.device_trusted (st : OlmState) (device : OlmDevice) : Bool :=
  match Key.from_olmdevice device with
  | some key => st.trust_db.check key
  | none => false

/-- `Olm.save_account`: insert on new, update by user otherwise. -/
def Olm.save_account (st : OlmState) (new : Bool) : OlmState :=
  if new then
    { st with database := { st.database with
        olmaccount := st.database.olmaccount ++ [(st.user_id, st.account)] } }
  else
    { st with database := { st.database with
        olmaccount := st.database.olmaccount.map (fun r =>
          if r.1 = st.user_id then (r.1, st.account) else r) } }

/-- The `update olmsessions set pickle=? where ...` effect on one row. -/
def updRow (session : OlmSession) (r : SessionRow) : SessionRow :=
  if r.user = session.user_id ∧ r.device_id = session.device_id ∧
      r.identity_key = session.identity_key ∧
      r.session_id = session.session.sid then
    { r with pickle := session.session }
  else r

/-- `Olm.save_session`: insert the full row on new, else update the pickle
of the rows matching (user, device_id, identity_key, session_id). -/
def Olm.save_session (st : OlmState) (session : OlmSession) (new : Bool) :
    OlmState :=
  if new then
    { st with database := { st.database with
        olmsessions := st.database.olmsessions ++
          [⟨session.user_id, session.device_id, session.identity_key,
            session.session.sid, session.session⟩] } }
  else
    { st with database := { st.database with
        olmsessions := st.database.olmsessions.map (updRow session) } }

/-- `Olm.save_inbound_group_session`: insert a row.  (The engine never
calls this; the call in `create_group_session` is commented out.) -/
def Olm.save_inbound_group_session (st : OlmState) (room_id : String)
    (session : InboundGroupSessionObj) : OlmState :=
  { st with database := { st.database with
      inbound_group_sessions := st.database.inbound_group_sessions ++
        [⟨room_id, session.sid, session.pickle⟩] } }

/-- `Olm._create_inbound_session`: build an `InboundSession`, remove the
one-time keys it consumed from the account, and persist the account.  On a
construction error nothing is mutated. -/
def Olm.create_inbound_session (lib : CryptoLib) (st : OlmState)
    (_sender sender_key : String) (message : OlmMsg) :
    OlmState × Except PyError Session :=
  match lib.newInbound st.account sender_key message with
  | .error e => (st, .error e)
  | .ok session =>
    let st := { st with account := lib.removeOneTimeKeys st.account session }
    (Olm.save_account st false, .ok session)

/-- `Olm.create_group_session`: construct an `InGroupSession`; a mismatch
between the id derived from the session key and the given session id is an
`OlmSessionError` that is caught and logged, dropping the session.  On
success the session is written into the map; the
`save_inbound_group_session` call is commented out in the source, so the
database is untouched. -/
def Olm.create_group_session (lib : CryptoLib) (st : OlmState)
    (sender_key sender_fp_key room_id session_id session_key : String) :
    OlmState :=
  if lib.groupId session_key != session_id then
    st
  else
    let session : InboundGroupSessionObj :=
      { sid := lib.groupId session_key, session_key := session_key,
        sender_key := some sender_key, sender_fp_key := some sender_fp_key,
        room_id_attr := some room_id }
    { st with inbound_group_sessions :=
        igsSet st.inbound_group_sessions room_id session_id session }

/-- Python positional-call semantics for `create_group_session`: the method
takes five required positional parameters, so a call supplying any other
number of positional arguments raises `TypeError` before the body runs. -/
def Olm.create_group_session_posargs (lib : CryptoLib) (st : OlmState)
    (args : List String) : OlmState × Except PyError Unit :=
  match args with
  | [a1, a2, a3, a4, a5] =>
    (Olm.create_group_session lib st a1 a2 a3 a4 a5, .ok ())
  | _ => (st, .error .typeError)

/-- `Olm.create_outbound_group_session`: store a fresh outbound session for
the room, then call `self.create_group_session(room_id, session.id,
session.session_key)` — three positional arguments for a five-parameter
method.  The fresh session produced by `OutboundGroupSession()` is passed
in as `fresh`. -/
def Olm.create_outbound_group_session (lib : CryptoLib) (st : OlmState)
    (fresh : OutboundGroupSession) (room_id : String) :
    OlmState × Except PyError Unit :=
  let st := { st with
    outbound_group_sessions := aset st.outbound_group_sessions room_id fresh }
  Olm.create_group_session_posargs lib st [room_id, fresh.sid, fresh.session_key]

/-- The body of the device loop in `Olm.get_missing_sessions`: skip the
engine's own device id, skip devices with a session, record the rest. -/
def missingDeviceStep (st : OlmState) (ds : List String) (device : OlmDevice) :
    List String :=
  if device.id == st.device_id then ds
  else
    match st.session_store.get device.curve25519 with
    | some _ => ds
    | none => ds ++ [device.id]

/-- The body of the user loop in `Olm.get_missing_sessions`. -/
def missingUserStep (st : OlmState) (missing : List (String × List String))
    (user_id : String) : List (String × List String) :=
  let devices := (st.devices.user_devices user_id).foldl (missingDeviceStep st) []
  if devices.isEmpty then missing else missing ++ [(user_id, devices)]

/-- `Olm.get_missing_sessions`: for each user, the ids of their devices
(other than this engine's own device id) that have no pairwise session. -/
def Olm.get_missing_sessions (st : OlmState) (users : List String) :
    List (String × List String) :=
  users.foldl (missingUserStep st) []

/-- The loop body of `Olm._try_decrypt` over the sender's session list.  For
a pre-key message a non-matching session is skipped; a decryption
`OlmSessionError` on a matching session raises `EncryptionError`, otherwise
the next session is tried; a successful decryption returns the plaintext. -/
def tryDecryptLoop (message : OlmMsg) :
    List OlmSession → Except PyError (Option String)
  | [] => .ok none
  | session :: rest =>
    let isPre : Bool := match message with
      | .preKey _ => true
      | .normal _ => false
    let does_match : Bool :=
      if isPre then session.session.matchesMsg message else false
    if isPre && !does_match then
      tryDecryptLoop message rest
    else
      match session.session.decryptMsg message with
      | .ok plaintext => .ok (some plaintext)
      | .error e =>
        if e == .olmSessionError then
          if does_match then .error .encryptionError
          else tryDecryptLoop message rest
        else .error e

/-- `Olm._try_decrypt`. -/
def Olm.try_decrypt (st : OlmState) (_sender sender_key : String)
    (message : OlmMsg) : Except PyError (Option String) :=
  tryDecryptLoop message (st.session_store.lookup sender_key)

/-- `Olm._verify_olm_payload`: sender / recipient / recipient-key checks,
then fingerprint verification against the device store, converting the
lookup `KeyError` into `OlmTrustError`. -/
def Olm.verify_olm_payload (st : OlmState) (sender : String)
    (payload : Payload) : Except PyError Bool :=
  if sender != payload.sender then .error .verificationError
  else if st.user_id != payload.recipient then .error .verificationError
  else if st.account.ed25519 != payload.recipient_keys_ed25519 then
    .error .verificationError
  else
    let sender_fp_key : Ed25519Key :=
      { user_id := sender, device_id := payload.sender_device,
        key := payload.keys_ed25519 }
    match st.devices.verify_key sender_fp_key with
    | .error _ => .error .olmTrustError
    | .ok verified =>
      if !verified then .error .verificationError else .ok true

/-- `Olm._handle_olm_event`: only `m.room_key` events that pass the room-key
schema and declare the Megolm algorithm install a group session. -/
def Olm.handle_olm_event (lib : CryptoLib) (st : OlmState)
    (_sender sender_key : String) (payload : Payload) : OlmState :=
  if payload.type != "m.room_key" then st
  else if !(lib.validRoomKeyEvent payload) then st
  else if payload.content.algorithm != "m.megolm.v1.aes-sha2" then st
  else
    Olm.create_group_session lib st sender_key payload.keys_ed25519
      payload.content.room_id payload.content.session_id
      payload.content.session_key

/-- The `finally` block of `Olm.decrypt`: if a new inbound session was
created, wrap it, register it in the session store and insert it into the
database. -/
def Olm.finalize_new_session (st : OlmState)
    (sender sender_device sender_key : String) (sOpt : Option Session) :
    OlmState :=
  match sOpt with
  | none => st
  | some s =>
    let session : OlmSession := ⟨sender, sender_device, sender_key, s⟩
    let st := { st with session_store := (st.session_store.add session).1 }
    Olm.save_session st session true

/-- `Olm.decrypt` from the point where a plaintext has been obtained
(lines 817-875): the emptiness guard, JSON parsing, olm-event schema
validation — each of which returns early, before the `try/finally` — and
then payload verification with its `except`/`else`/`finally` dispositions.
`sOpt` is the new inbound session when one was created in step 2. -/
def Olm.decrypt_with_plaintext (lib : CryptoLib) (st : OlmState)
    (sender sender_key : String) (plaintext : String) (sOpt : Option Session) :
    OlmState × Except PyError Unit :=
  if plaintext == "" then (st, .ok ())
  else
    match lib.parse plaintext with
    | none => (st, .ok ())
    | some parsed_payload =>
      if !(lib.validOlmEvent parsed_payload) then (st, .ok ())
      else
        let sender_device := parsed_payload.sender_device
        match Olm.verify_olm_payload st sender parsed_payload with
        | .error .verificationError =>
          (Olm.finalize_new_session st sender sender_device sender_key sOpt,
            .ok ())
        | .error .olmTrustError =>
          let st := { st with
            olm_queue := st.olm_queue ++ [(sender, sender_key, parsed_payload)] }
          (Olm.finalize_new_session st sender sender_device sender_key sOpt,
            .ok ())
        | .error e =>
          (Olm.finalize_new_session st sender sender_device sender_key sOpt,
            .error e)
        | .ok _ =>
          let st := Olm.handle_olm_event lib st sender sender_key parsed_payload
          (Olm.finalize_new_session st sender sender_device sender_key sOpt,
            .ok ())

/-- `Olm.decrypt`: try existing sessions (an `EncryptionError` from a
matching session aborts, returning normally); on no plaintext and a pre-key
message create a new inbound session and decrypt with it (an
`OlmSessionError` is logged and dropped); then parse, validate, verify and
handle the payload. -/
def Olm.decrypt (lib : CryptoLib) (st : OlmState)
    (sender sender_key : String) (message : OlmMsg) :
    OlmState × Except PyError Unit :=
  match Olm.try_decrypt st sender sender_key message with
  | .error e =>
    if e == .encryptionError then (st, .ok ()) else (st, .error e)
  | .ok (some plaintext) =>
    Olm.decrypt_with_plaintext lib st sender sender_key plaintext none
  | .ok none =>
    match message with
    | .normal _ => (st, .ok ())
    | .preKey body =>
      match Olm.create_inbound_session lib st sender sender_key (.preKey body) with
      | (st1, .error e) =>
        if e == .olmSessionError then (st1, .ok ()) else (st1, .error e)
      | (st1, .ok s) =>
        match s.decryptMsg (.preKey body) with
        | .error e =>
          if e == .olmSessionError then (st1, .ok ()) else (st1, .error e)
        | .ok plaintext =>
          Olm.decrypt_with_plaintext lib st1 sender sender_key plaintext (some s)

/-- The per-device message placed into `to_device_dict["messages"]`. -/
structure DeviceMessage where
  recipient : String
  recipient_key : String
  sender_key : String
  target_curve25519 : String
  msg_type_is_prekey : Bool
  body : String

/-- The nested `to_device_dict["messages"]` dict: user id → device id →
olm message dict. -/
def ToDevice : Type := List (String × List (String × DeviceMessage))

def tdGet (m : ToDevice) (user device : String) : Option DeviceMessage :=
  match alookup m user with
  | none => none
  | some inner => alookup inner device

def tdSet (m : ToDevice) (user device : String) (v : DeviceMessage) : ToDevice :=
  aset m user (aset ((alookup m user).getD []) device v)

/-- One device iteration of `Olm.share_group_session`: skip the engine's
own device id, skip devices without a pairwise session, raise
`OlmTrustError` for devices whose fingerprint is in `trust_db`, otherwise
encrypt the room-key payload to the device and record it. -/
def Olm.share_device_step (lib : CryptoLib) (st : OlmState)
    (payload_dict : Payload) (user_id : String) (device : OlmDevice)
    (acc : ToDevice) : Except PyError ToDevice :=
  if device.id == st.device_id then .ok acc
  else
    match st.session_store.get device.curve25519 with
    | none => .ok acc
    | some session =>
      if Olm.device_trusted st device then .error .olmTrustError
      else
        let device_payload_dict : Payload := { payload_dict with
          recipient := user_id, recipient_keys_ed25519 := device.ed25519 }
        let olm_message :=
          session.session.encryptMsg (lib.payloadToJson device_payload_dict)
        let olm_dict : DeviceMessage :=
          { recipient := user_id, recipient_key := device.ed25519,
            sender_key := st.account.curve25519,
            target_curve25519 := device.curve25519,
            msg_type_is_prekey := olm_message.1, body := olm_message.2 }
        .ok (tdSet acc user_id device.id olm_dict)

/-- The inner device loop of `Olm.share_group_session`. -/
def shareDevices (lib : CryptoLib) (st : OlmState) (payload_dict : Payload)
    (user_id : String) : List OlmDevice → ToDevice → Except PyError ToDevice
  | [], acc => .ok acc
  | device :: rest, acc =>
    match Olm.share_device_step lib st payload_dict user_id device acc with
    | .error e => .error e
    | .ok acc1 => shareDevices lib st payload_dict user_id rest acc1

/-- The outer user loop of `Olm.share_group_session`. -/
def shareUsers (lib : CryptoLib) (st : OlmState) (payload_dict : Payload) :
    List String → ToDevice → Except PyError ToDevice
  | [], acc => .ok acc
  | user_id :: rest, acc =>
    match shareDevices lib st payload_dict user_id
        (st.devices.user_devices user_id) acc with
    | .error e => .error e
    | .ok acc1 => shareUsers lib st payload_dict rest acc1

/-- `Olm.share_group_session`: build the shared `m.room_key` payload for the
room's outbound session and encrypt it to every eligible device of the
given users. -/
def Olm.share_group_session (lib : CryptoLib) (st : OlmState)
    (room_id : String) (users : List String) : Except PyError ToDevice :=
  match alookup st.outbound_group_sessions room_id with
  | none => .error .keyError
  | some group_session =>
    let key_content : PayloadContent :=
      { algorithm := "m.megolm.v1.aes-sha2", room_id := room_id,
        session_id := group_session.sid,
        session_key := group_session.session_key,
        chain_index := group_session.message_index }
    let payload_dict : Payload :=
      { type := "m.room_key", content := key_content, sender := st.user_id,
        sender_device := st.device_id, keys_ed25519 := st.account.ed25519,
        recipient := "", recipient_keys_ed25519 := "" }
    shareUsers lib st payload_dict users []

/-- The outbound room payload returned by `group_encrypt`. -/
structure RoomPayload where
  algorithm : String
  sender_key : String
  ciphertext : String
  session_id : String
  device_id : String

/-- `Olm.group_encrypt`: inject the room id into the plaintext dict, lazily
create the outbound session (the fresh `OutboundGroupSession()` is passed
in as `fresh`), share it once per session id, then encrypt.  The outbound
sessions map is not mutated between the lookup, the sharing and the final
read, so the session is looked up once; the ratchet advance of `encrypt`
is written back to the map (the source mutates the shared object). -/
def Olm.group_encrypt (lib : CryptoLib) (st : OlmState)
    (fresh : OutboundGroupSession) (room_id : String)
    (plaintext_dict : List (String × String)) (users : List String) :
    OlmState × Except PyError (RoomPayload × Option ToDevice) :=
  let plaintext_dict := aset plaintext_dict "room_id" room_id
  let created : OlmState × Except PyError Unit :=
    if (alookup st.outbound_group_sessions room_id).isNone then
      Olm.create_outbound_group_session lib st fresh room_id
    else (st, .ok ())
  match created with
  | (st1, .error e) => (st1, .error e)
  | (st1, .ok _) =>
    match alookup st1.outbound_group_sessions room_id with
    | none => (st1, .error .keyError)
    | some session =>
      let shared : OlmState × Except PyError (Option ToDevice) :=
        if !(st1.shared_sessions.contains session.sid) then
          match Olm.share_group_session lib st1 room_id users with
          | .error e => (st1, .error e)
          | .ok to_device_dict =>
            ({ st1 with shared_sessions := st1.shared_sessions ++ [session.sid] },
              .ok (some to_device_dict))
        else (st1, .ok none)
      match shared with
      | (st2, .error e) => (st2, .error e)
      | (st2, .ok to_device_dict) =>
        let enc := OutboundGroupSession.encrypt lib session
          (lib.dictToJson plaintext_dict)
        let st3 := { st2 with
          outbound_group_sessions := aset st2.outbound_group_sessions room_id enc.2 }
        let payload_dict : RoomPayload :=
          { algorithm := "m.megolm.v1.aes-sha2",
            sender_key := st3.account.curve25519, ciphertext := enc.1,
            session_id := session.sid, device_id := st3.device_id }
        (st3, .ok (payload_dict, to_device_dict))

/-- `Olm.group_decrypt`. -/
def Olm.group_decrypt (st : OlmState) (room_id session_id _ciphertext : String) :
    Option InboundGroupSessionObj :=
  igsGet st.inbound_group_sessions room_id session_id

/-- `Olm.load` on an already-initialized database (lines 1010-1065): read
the account pickle for this user (a missing row is the `TypeError` of
`row[0]` on `None`), add every pairwise-session row to the session store,
and install every inbound-group-session row under `(room_id, pickle.id)`. -/
def loadSessionRow (acc : OlmState) (r : SessionRow) : OlmState :=
  { acc with
    session_store :=
      (acc.session_store.add ⟨r.user, r.device_id, r.identity_key, r.pickle⟩).1 }

def loadGroupRow (acc : OlmState) (r : GroupRow) : OlmState :=
  { acc with
    inbound_group_sessions :=
      igsSet acc.inbound_group_sessions r.room_id
        (InboundGroupSession.from_pickle r.pickle).sid
        (InboundGroupSession.from_pickle r.pickle) }

def Olm.load (st : OlmState) : OlmState × Except PyError Unit :=
  match alookup st.database.olmaccount st.user_id with
  | none => (st, .error .typeError)
  | some account_pickle =>
    let st := { st with account := account_pickle }
    let st := st.database.olmsessions.foldl loadSessionRow st
    let st := st.database.inbound_group_sessions.foldl loadGroupRow st
    (st, .ok ())

/-- `Olm.save`: persist the account, then update every session of the
session store in the database.  Inbound group sessions are not written. -/
def Olm.save (st : OlmState) : OlmState :=
  let st := Olm.save_account st false
  (st.session_store.all).foldl (fun acc s => Olm.save_session acc s false) st

/-- Closing the engine and constructing a new `Olm(user_id, device_id,
session_path)` over the same database: the constructor starts with fresh
in-memory stores and then runs `load()`. -/
def Olm.reopen (st : OlmState) : OlmState × Except PyError Unit :=
  Olm.load { st with
    session_store := ⟨[]⟩, inbound_group_sessions := [],
    outbound_group_sessions := [], shared_sessions := [], olm_queue := [] }

/-! ### Helper lemmas about the dict model -/

theorem alookup_aset_self {β : Type} (m : List (String × β)) (k : String)
    (v : β) : alookup (aset m k v) k = some v := by
  induction m with
  | nil => simp [aset, alookup]
  | cons e rest ih =>
    by_cases h : e.1 = k
    · simp [aset, h, alookup]
    · simp [aset, h, alookup, ih]

theorem alookup_aset_ne {β : Type} (m : List (String × β)) (k k' : String)
    (v : β) (h : k' ≠ k) : alookup (aset m k v) k' = alookup m k' := by
  have hkk : ¬k = k' := fun hh => h hh.symm
  induction m with
  | nil => simp [aset, alookup, hkk]
  | cons e rest ih =>
    by_cases he : e.1 = k
    · have he' : ¬e.1 = k' := by rw [he]; exact hkk
      rw [aset, if_pos he, alookup, if_neg hkk, alookup, if_neg he']
    · by_cases h2 : e.1 = k'
      · rw [aset, if_neg he, alookup, if_pos h2, alookup, if_pos h2]
      · rw [aset, if_neg he, alookup, if_neg h2, alookup, if_neg h2, ih]

theorem alookup_mem {β : Type} {m : List (String × β)} {k : String} {v : β}
    (h : alookup m k = some v) : (k, v) ∈ m := by
  induction m with
  | nil => simp [alookup] at h
  | cons e rest ih =>
    by_cases he : e.1 = k
    · rw [alookup, if_pos he] at h
      cases h
      have he2 : (k, e.2) = e := by rw [← he]
      rw [he2]
      exact List.mem_cons_self e rest
    · rw [alookup, if_neg he] at h
      exact List.mem_cons_of_mem _ (ih h)

/-! ### Helper lemmas about OlmSession equality -/

theorem olmSessionEq_true_iff (a b : OlmSession) :
    olmSessionEq a b = true ↔
      a.user_id = b.user_id ∧ a.device_id = b.device_id ∧
        a.identity_key = b.identity_key ∧ a.session.sid = b.session.sid := by
  simp [olmSessionEq, and_assoc]

theorem olmSessionEq_refl (a : OlmSession) : olmSessionEq a a = true := by
  simp [olmSessionEq]

theorem olmSessionEq_symm (a b : OlmSession) :
    olmSessionEq a b = olmSessionEq b a := by
  rw [Bool.eq_iff_iff, olmSessionEq_true_iff, olmSessionEq_true_iff]
  constructor <;> rintro ⟨h1, h2, h3, h4⟩ <;>
    exact ⟨h1.symm, h2.symm, h3.symm, h4.symm⟩

/-! ### Helper lemmas about the session store -/

theorem SessionStore.lookup_mk_aset (m : List (String × List OlmSession))
    (k : String) (l : List OlmSession) :
    SessionStore.lookup ⟨aset m k l⟩ k = l := by
  simp [SessionStore.lookup, alookup_aset_self]

theorem SessionStore.lookup_mk_aset_ne (m : List (String × List OlmSession))
    (k k' : String) (l : List OlmSession) (h : k' ≠ k) :
    SessionStore.lookup ⟨aset m k l⟩ k' = SessionStore.lookup ⟨m⟩ k' := by
  simp [SessionStore.lookup, alookup_aset_ne m k k' l h]

theorem SessionStore.mem_lookup_all (st : SessionStore) (k : String)
    (x : OlmSession) (h : x ∈ st.lookup k) : x ∈ st.all := by
  unfold SessionStore.lookup at h
  cases hl : alookup st.entries k with
  | none => rw [hl] at h; simp at h
  | some l =>
    rw [hl] at h
    simp only [Option.getD_some] at h
    have hm : (k, l) ∈ st.entries := alookup_mem hl
    unfold SessionStore.all
    exact List.mem_flatMap.mpr ⟨(k, l), hm, h⟩

/-- Membership in the flattened store after writing the bucket `k` to a
list `l` whose members are the old bucket's members plus `s`. -/
theorem SessionStore.all_aset_mem (m : List (String × List OlmSession))
    (k : String) (l : List OlmSession) (s : OlmSession)
    (hl : ∀ x, x ∈ l ↔ x ∈ (alookup m k).getD [] ∨ x = s) (x : OlmSession) :
    x ∈ SessionStore.all ⟨aset m k l⟩ ↔ x ∈ SessionStore.all ⟨m⟩ ∨ x = s := by
  induction m with
  | nil =>
    simp only [alookup, Option.getD_none, List.not_mem_nil, false_or] at hl
    simp [aset, SessionStore.all, hl]
  | cons e rest ih =>
    by_cases he : e.1 = k
    · rw [alookup, if_pos he, Option.getD_some] at hl
      rw [aset, if_pos he]
      simp only [SessionStore.all, List.flatMap_cons, List.mem_append, hl x]
      tauto
    · rw [alookup, if_neg he] at hl
      rw [aset, if_neg he]
      have := ih hl
      simp only [SessionStore.all, List.flatMap_cons, List.mem_append] at this ⊢
      tauto

/-- The `(identity_key, session_id)` pairs of all sessions in the store. -/
def storePairs (st : SessionStore) : List (String × String) :=
  st.all.map (fun s => (s.identity_key, s.session.sid))

theorem storePairs_add (st : SessionStore) (s : OlmSession)
    (p : String × String) :
    p ∈ storePairs (st.add s).1 ↔
      p ∈ storePairs st ∨ p = (s.identity_key, s.session.sid) := by
  unfold SessionStore.add
  by_cases h : (st.lookup s.identity_key).any (fun x => olmSessionEq s x) = true
  · rw [if_pos h]
    constructor
    · exact Or.inl
    · rintro (hp | hp)
      · exact hp
      · rcases List.any_eq_true.mp h with ⟨x, hx, hex⟩
        rcases (olmSessionEq_true_iff s x).mp hex with ⟨-, -, hik, hsid⟩
        refine List.mem_map.mpr ⟨x, st.mem_lookup_all _ _ hx, ?_⟩
        rw [hp, hik, hsid]
  · rw [if_neg h]
    have hall := SessionStore.all_aset_mem st.entries s.identity_key
      (List.insertionSort sessionOrder (st.lookup s.identity_key ++ [s])) s
      (fun x => by
        rw [(List.perm_insertionSort sessionOrder _).mem_iff]
        simp [SessionStore.lookup])
    constructor
    · intro hp
      rcases List.mem_map.mp hp with ⟨x, hx, hpx⟩
      rcases (hall x).mp hx with hx' | hx'
      · exact Or.inl (List.mem_map.mpr ⟨x, hx', hpx⟩)
      · subst hx'; exact Or.inr hpx.symm
    · rintro (hp | hp)
      · rcases List.mem_map.mp hp with ⟨x, hx, hpx⟩
        exact List.mem_map.mpr ⟨x, (hall x).mpr (Or.inl hx), hpx⟩
      · exact List.mem_map.mpr ⟨s, (hall s).mpr (Or.inr rfl), hp.symm⟩

/-! ### C4: KeyStore fingerprint pinning -/

theorem keystore_add_ok_key (s0 : KeyStore) (k : Ed25519Key)
    (h : (KeyStore.add s0 k).2 = .ok true) :
    ∃ e, (KeyStore.add s0 k).1.get_key k.user_id k.device_id = some e ∧
      e.key = k.key := by
  cases hg : s0.get_key k.user_id k.device_id with
  | none =>
    refine ⟨k, ?_, rfl⟩
    simp only [KeyStore.add, hg]
    unfold KeyStore.get_key at hg ⊢
    simp only [KeyStore.save]
    rw [List.find?_append, hg]
    simp
  | some ex =>
    simp only [KeyStore.add, hg] at h
    by_cases hne : (ex.key != k.key) = true
    · rw [if_pos hne] at h; cases h
    · have hek : ex.key = k.key :=
        not_not.mp (fun hnk => hne (bne_iff_ne.mpr hnk))
      refine ⟨ex, ?_, hek⟩
      simp only [KeyStore.add, hg, if_neg hne]
      unfold KeyStore.get_key at hg ⊢
      simp only [KeyStore.save]
      rw [List.find?_append, hg]
      rfl

/-- C4: after a successful `KeyStore.add` of a key for some (user, device),
a second `add` for the same (user, device) with different key bytes raises
`OlmTrustError` and returns with the store — in-memory entries and backing
file alike — completely unchanged, so the pinned fingerprint is never
overwritten. -/
theorem C4_keystore_conflicting_add (s0 : KeyStore) (k1 k2 : Ed25519Key)
    (h1 : (KeyStore.add s0 k1).2 = .ok true)
    (hu : k2.user_id = k1.user_id) (hd : k2.device_id = k1.device_id)
    (hk : k2.key ≠ k1.key) :
    KeyStore.add (KeyStore.add s0 k1).1 k2 =
      ((KeyStore.add s0 k1).1, .error .olmTrustError) := by
  obtain ⟨e, hg, hek⟩ := keystore_add_ok_key s0 k1 h1
  have hne : (e.key != k2.key) = true :=
    bne_iff_ne.mpr (by rw [hek]; exact fun hh => hk hh.symm)
  generalize hS : (KeyStore.add s0 k1).1 = s1 at hg ⊢
  have hg2 : s1.get_key k2.user_id k2.device_id = some e := by
    rw [hu, hd]; exact hg
  simp only [KeyStore.add, hg2, hne, if_true]

def c4store : KeyStore := ⟨[], []⟩

def c4key1 : Ed25519Key := ⟨"@alice:example.org", "DEV", "FirstFingerprint"⟩

def c4key2 : Ed25519Key := ⟨"@alice:example.org", "DEV", "SecondFingerprint"⟩

theorem C4_witness :
    KeyStore.add (KeyStore.add c4store c4key1).1 c4key2 =
      ((KeyStore.add c4store c4key1).1, .error .olmTrustError) :=
  C4_keystore_conflicting_add c4store c4key1 c4key2 rfl rfl rfl (by decide)

/-! ### C9: SessionStore ordering, dedup and get -/

/-- Building a store by a sequence of `add` calls from the empty store. -/
def buildSessionStore (ss : List OlmSession) : SessionStore :=
  ss.foldl (fun acc s => (acc.add s).1) ⟨[]⟩

/-- Two sessions that are distinct under `OlmSession.__eq__`. -/
def sessionsDistinct (a b : OlmSession) : Prop := olmSessionEq a b = false

theorem storeInv_add (st : SessionStore) (s : OlmSession)
    (h : ∀ p, (st.lookup p).Pairwise sessionOrder ∧
      (st.lookup p).Pairwise sessionsDistinct) (p : String) :
    ((st.add s).1.lookup p).Pairwise sessionOrder ∧
      ((st.add s).1.lookup p).Pairwise sessionsDistinct := by
  unfold SessionStore.add
  by_cases hdup : (st.lookup s.identity_key).any (fun x => olmSessionEq s x) = true
  · rw [if_pos hdup]; exact h p
  · rw [if_neg hdup]
    by_cases hp : p = s.identity_key
    · subst hp
      rw [SessionStore.lookup_mk_aset]
      constructor
      · exact List.sorted_insertionSort sessionOrder _
      · have hsymm : ∀ {x y : OlmSession},
            sessionsDistinct x y → sessionsDistinct y x := by
          intro x y hxy
          unfold sessionsDistinct at hxy ⊢
          rw [olmSessionEq_symm]
          exact hxy
        rw [List.Perm.pairwise_iff hsymm
          (List.perm_insertionSort sessionOrder (st.lookup s.identity_key ++ [s]))]
        rw [List.pairwise_append]
        refine ⟨(h s.identity_key).2, List.pairwise_singleton _ _, ?_⟩
        intro a ha b hb
        rw [List.mem_singleton] at hb
        subst hb
        have hfa := List.any_eq_false.mp (Bool.eq_false_iff.mpr hdup) a ha
        unfold sessionsDistinct
        rw [olmSessionEq_symm]
        exact Bool.eq_false_iff.mpr hfa
    · rw [SessionStore.lookup_mk_aset_ne _ _ _ _ hp]
      exact h p

theorem storeInv_build (ss : List OlmSession) (p : String) :
    ((buildSessionStore ss).lookup p).Pairwise sessionOrder ∧
      ((buildSessionStore ss).lookup p).Pairwise sessionsDistinct := by
  unfold buildSessionStore
  have hgen : ∀ (l : List OlmSession) (st : SessionStore),
      (∀ q, (st.lookup q).Pairwise sessionOrder ∧
        (st.lookup q).Pairwise sessionsDistinct) →
      ∀ q, (((l.foldl (fun acc s => (acc.add s).1) st).lookup q).Pairwise
          sessionOrder ∧
        ((l.foldl (fun acc s => (acc.add s).1) st).lookup q).Pairwise
          sessionsDistinct) := by
    intro l
    induction l with
    | nil => intro st h q; exact h q
    | cons x xs ih => intro st h q; exact ih _ (storeInv_add st x h) q
  refine hgen ss ⟨[]⟩ ?_ p
  intro q
  constructor <;> simp [SessionStore.lookup, alookup]

/-- C9: after any sequence of `SessionStore.add` calls starting from the
empty store, every peer's session list is duplicate-free under
`OlmSession` equality, sorted ascending by the underlying session id, and
`get` returns the head of that list — a session whose session id is
minimal in the list — or `none` when the list is empty
(`[].head? = none`). -/
theorem C9_sessionstore_sorted_dedup_get (ss : List OlmSession) (p : String) :
    ((buildSessionStore ss).lookup p).Pairwise sessionOrder ∧
      ((buildSessionStore ss).lookup p).Pairwise sessionsDistinct ∧
      (buildSessionStore ss).get p = ((buildSessionStore ss).lookup p).head? ∧
      ∀ s, (buildSessionStore ss).get p = some s →
        s ∈ (buildSessionStore ss).lookup p ∧
          ∀ x ∈ (buildSessionStore ss).lookup p, sessionOrder s x := by
  obtain ⟨h1, h2⟩ := storeInv_build ss p
  refine ⟨h1, h2, rfl, ?_⟩
  intro s hs
  unfold SessionStore.get at hs
  rcases List.head?_eq_some_iff.mp hs with ⟨ys, hys⟩
  rw [hys] at h1 ⊢
  rw [List.pairwise_cons] at h1
  refine ⟨List.mem_cons_self _ _, ?_⟩
  intro x hx
  rcases List.mem_cons.mp hx with hx | hx
  · subst hx; exact lexLe_refl _
  · exact h1.1 x hx

def c9sessA : OlmSession :=
  ⟨"bob", "DEVA", "c9peer",
    ⟨"AAA", fun _ => false, fun _ => .error .olmSessionError, fun _ => (false, "")⟩⟩

def c9sessB : OlmSession :=
  ⟨"bob", "DEVB", "c9peer",
    ⟨"BBB", fun _ => false, fun _ => .error .olmSessionError, fun _ => (false, "")⟩⟩

theorem C9_witness :
    c9sessA ∈ (buildSessionStore [c9sessB, c9sessA]).lookup "c9peer" ∧
      ∀ x ∈ (buildSessionStore [c9sessB, c9sessA]).lookup "c9peer",
        sessionOrder c9sessA x :=
  (C9_sessionstore_sorted_dedup_get [c9sessB, c9sessA] "c9peer").2.2.2 c9sessA rfl

/-! ### Concrete base values used to instantiate theorems -/

/-- A minimal engine state for concrete instantiations. -/
def baseState : OlmState :=
  { user_id := "@alice:example.org", device_id := "ALICEDEV",
    shared_sessions := [], devices := ⟨[], ⟨[], []⟩⟩,
    session_store := ⟨[]⟩, inbound_group_sessions := [],
    outbound_group_sessions := [],
    account := ⟨"alice_ed", "alice_curve", ["otk1"]⟩,
    trust_db := ⟨[], []⟩,
    database := ⟨[("@alice:example.org", ⟨"alice_ed", "alice_curve", ["otk1"]⟩)],
      [], []⟩,
    olm_queue := [] }

/-- A concrete instantiation of the opaque library behaviour. -/
def baseLib : CryptoLib :=
  { groupId := fun k => k,
    newInbound := fun _ _ _ => .error .olmSessionError,
    removeOneTimeKeys := fun a _ => a,
    parse := fun _ => none,
    validOlmEvent := fun _ => false,
    validRoomKeyEvent := fun _ => false,
    payloadToJson := fun _ => "json",
    dictToJson := fun _ => "json",
    megolmCipher := fun _ _ p => p }

/-! ### C3: a matching session that fails to decrypt aborts the pipeline -/

theorem tryDecryptLoop_skip (body : String) (l1 l2 : List OlmSession)
    (hskip : ∀ x ∈ l1, x.session.matchesMsg (.preKey body) = false) :
    tryDecryptLoop (.preKey body) (l1 ++ l2) =
      tryDecryptLoop (.preKey body) l2 := by
  induction l1 with
  | nil => rfl
  | cons x xs ih =>
    have hx := hskip x (List.mem_cons_self _ _)
    rw [List.cons_append, tryDecryptLoop]
    simp only [hx]
    exact ih (fun y hy => hskip y (List.mem_cons_of_mem _ hy))

/-- C3: if some session for the sender matches a pre-key message (all
earlier sessions not matching) but fails to decrypt it, `_try_decrypt`
raises `EncryptionError` — independently of any later sessions, which are
never tried — and `decrypt` catches it and returns with the engine state
completely unchanged: no new inbound session, no account mutation (so no
one-time key consumed), no payload processing, no group-session install. -/
theorem C3_matching_session_aborts (lib : CryptoLib) (st : OlmState)
    (sender sender_key body : String) (l1 l2 : List OlmSession)
    (sess : OlmSession)
    (hstore : st.session_store.lookup sender_key = l1 ++ sess :: l2)
    (hskip : ∀ x ∈ l1, x.session.matchesMsg (.preKey body) = false)
    (hmatch : sess.session.matchesMsg (.preKey body) = true)
    (hfail : sess.session.decryptMsg (.preKey body) = .error .olmSessionError) :
    Olm.try_decrypt st sender sender_key (.preKey body) =
        .error .encryptionError ∧
      Olm.decrypt lib st sender sender_key (.preKey body) = (st, .ok ()) := by
  have htry : Olm.try_decrypt st sender sender_key (.preKey body) =
      .error .encryptionError := by
    unfold Olm.try_decrypt
    rw [hstore, tryDecryptLoop_skip body l1 (sess :: l2) hskip, tryDecryptLoop]
    simp only [hmatch, hfail]
    rfl
  refine ⟨htry, ?_⟩
  unfold Olm.decrypt
  rw [htry]
  rfl

/-- A session that matches the crafted pre-key message but fails to
decrypt it. -/
def c3sess : OlmSession :=
  ⟨"@bob:example.org", "BOBDEV", "c3peer",
    ⟨"C3SID", fun _ => true, fun _ => .error .olmSessionError,
      fun _ => (false, "")⟩⟩

def c3state : OlmState :=
  { baseState with session_store := ⟨[("c3peer", [c3sess])]⟩ }

theorem C3_witness :
    Olm.try_decrypt c3state "@bob:example.org" "c3peer" (.preKey "zz") =
        .error .encryptionError ∧
      Olm.decrypt baseLib c3state "@bob:example.org" "c3peer" (.preKey "zz") =
        (c3state, .ok ()) :=
  C3_matching_session_aborts baseLib c3state "@bob:example.org" "c3peer" "zz"
    [] [] c3sess rfl (by simp) rfl rfl

/-! ### C10: self-exclusion compares only the device id string -/

theorem tdGet_tdSet_ne {m : ToDevice} {u' d' u dv : String}
    (v : DeviceMessage) (h : dv ≠ d') :
    tdGet (tdSet m u' d' v) u dv = tdGet m u dv := by
  unfold tdGet tdSet
  by_cases hu : u = u'
  · rw [hu, alookup_aset_self]
    show alookup (aset ((alookup m u').getD []) d' v) dv =
        match alookup m u' with
        | none => none
        | some inner => alookup inner dv
    rw [alookup_aset_ne _ _ _ _ h]
    cases alookup m u' with
    | none => rfl
    | some inner => rfl
  · rw [alookup_aset_ne _ _ _ _ hu]

theorem shareDevices_own_none (lib : CryptoLib) (st : OlmState) (pd : Payload)
    (user_id : String) :
    ∀ (devs : List OlmDevice) (acc : ToDevice),
      (∀ u, tdGet acc u st.device_id = none) →
      ∀ res, shareDevices lib st pd user_id devs acc = .ok res →
      ∀ u, tdGet res u st.device_id = none := by
  intro devs
  induction devs with
  | nil =>
    intro acc hacc res h u
    cases h
    exact hacc u
  | cons d rest ih =>
    intro acc hacc res h u
    rw [shareDevices] at h
    cases hstep : Olm.share_device_step lib st pd user_id d acc with
    | error e => rw [hstep] at h; cases h
    | ok acc1 =>
      rw [hstep] at h
      refine ih acc1 ?_ res h u
      unfold Olm.share_device_step at hstep
      by_cases hself : (d.id == st.device_id) = true
      · rw [if_pos hself] at hstep
        cases hstep
        exact hacc
      · rw [if_neg hself] at hstep
        cases hsess : st.session_store.get d.curve25519 with
        | none =>
          simp only [hsess] at hstep
          cases hstep
          exact hacc
        | some s =>
          simp only [hsess] at hstep
          by_cases htr : Olm.device_trusted st d = true
          · rw [if_pos htr] at hstep; cases hstep
          · rw [if_neg htr] at hstep
            cases hstep
            intro u2
            have hne : st.device_id ≠ d.id :=
              fun hh => hself (beq_iff_eq.mpr hh.symm)
            rw [tdGet_tdSet_ne _ hne]
            exact hacc u2

theorem shareUsers_own_none (lib : CryptoLib) (st : OlmState) (pd : Payload) :
    ∀ (us : List String) (acc : ToDevice),
      (∀ u, tdGet acc u st.device_id = none) →
      ∀ res, shareUsers lib st pd us acc = .ok res →
      ∀ u, tdGet res u st.device_id = none := by
  intro us
  induction us with
  | nil =>
    intro acc hacc res h u
    cases h
    exact hacc u
  | cons u0 rest ih =>
    intro acc hacc res h u
    rw [shareUsers] at h
    cases hd : shareDevices lib st pd u0 (st.devices.user_devices u0) acc with
    | error e => rw [hd] at h; cases h
    | ok acc1 =>
      rw [hd] at h
      exact ih acc1
        (shareDevices_own_none lib st pd u0 _ acc hacc acc1 hd) res h u

theorem missing_inner_no_self (st : OlmState) :
    ∀ (devs : List OlmDevice) (ds : List String), st.device_id ∉ ds →
      st.device_id ∉ devs.foldl (missingDeviceStep st) ds := by
  intro devs
  induction devs with
  | nil => intro ds h; exact h
  | cons d rest ih =>
    intro ds h
    rw [List.foldl_cons]
    refine ih _ ?_
    unfold missingDeviceStep
    by_cases hself : (d.id == st.device_id) = true
    · rw [if_pos hself]; exact h
    · rw [if_neg hself]
      cases st.session_store.get d.curve25519 with
      | some s => exact h
      | none =>
        intro hmem
        rcases List.mem_append.mp hmem with hmem | hmem
        · exact h hmem
        · rw [List.mem_singleton] at hmem
          exact hself (beq_iff_eq.mpr hmem.symm)

theorem missing_outer_no_self (st : OlmState) :
    ∀ (us : List String) (missing : List (String × List String)),
      (∀ e ∈ missing, st.device_id ∉ e.2) →
      ∀ e ∈ us.foldl (missingUserStep st) missing, st.device_id ∉ e.2 := by
  intro us
  induction us with
  | nil => intro missing h e he; exact h e he
  | cons u0 rest ih =>
    intro missing h e he
    rw [List.foldl_cons] at he
    refine ih _ ?_ e he
    intro e2 he2
    unfold missingUserStep at he2
    by_cases hemp :
        ((st.devices.user_devices u0).foldl (missingDeviceStep st) []).isEmpty = true
    · rw [if_pos hemp] at he2
      exact h e2 he2
    · rw [if_neg hemp] at he2
      rcases List.mem_append.mp he2 with he2 | he2
      · exact h e2 he2
      · rw [List.mem_singleton] at he2
        subst he2
        exact missing_inner_no_self st _ [] (by simp)

/-- C10: both `share_group_session` and `get_missing_sessions` exclude
devices purely by comparing the device id string with the engine's own
device id: whatever the device's user id, a device whose id equals the
engine's device id is never present in the produced to-device messages
under any user and is never reported as missing a session. -/
theorem C10_self_exclusion_by_device_id (lib : CryptoLib) (st : OlmState)
    (room_id : String) (users : List String) :
    (∀ td, Olm.share_group_session lib st room_id users = .ok td →
      ∀ u, tdGet td u st.device_id = none) ∧
    ∀ e ∈ Olm.get_missing_sessions st users, st.device_id ∉ e.2 := by
  constructor
  · intro td h u
    unfold Olm.share_group_session at h
    cases hg : alookup st.outbound_group_sessions room_id with
    | none => rw [hg] at h; cases h
    | some gs =>
      rw [hg] at h
      exact shareUsers_own_none lib st _ users []
        (by intro u2; rfl) td h u
  · exact missing_outer_no_self st users [] (by simp)

/-- A device of a different user that happens to carry the engine's own
device id string, with no pairwise session. -/
def c10dev : OlmDevice :=
  ⟨"@mallory:example.org", "ALICEDEV", "mal_ed", "mal_curve"⟩

def c10state : OlmState :=
  { baseState with
    devices := ⟨[c10dev], ⟨[], []⟩⟩,
    outbound_group_sessions := [("!c10:x", ⟨"C10SID", "C10KEY", 0⟩)] }

theorem C10_witness :
    tdGet [] "@mallory:example.org" "ALICEDEV" = none ∧
      ∀ e ∈ Olm.get_missing_sessions c10state ["@mallory:example.org"],
        "ALICEDEV" ∉ e.2 :=
  ⟨(C10_self_exclusion_by_device_id baseLib c10state "!c10:x"
        ["@mallory:example.org"]).1 [] rfl "@mallory:example.org",
    (C10_self_exclusion_by_device_id baseLib c10state "!c10:x"
        ["@mallory:example.org"]).2⟩

/-! ### C5: the trust gate of share_group_session raises on trusted devices -/

/-- A device the sharing loop neither skips nor tolerates: not the engine's
own device id, has a pairwise session, and its fingerprint is present in
`trust_db`. -/
def trustedEligible (st : OlmState) (d : OlmDevice) : Prop :=
  (d.id == st.device_id) = false ∧
    (st.session_store.get d.curve25519).isSome = true ∧
    Olm.device_trusted st d = true

theorem share_device_step_err (lib : CryptoLib) (st : OlmState) (pd : Payload)
    (u : String) (d : OlmDevice) (acc : ToDevice)
    (h : trustedEligible st d) :
    Olm.share_device_step lib st pd u d acc = .error .olmTrustError := by
  obtain ⟨hself, hsome, htr⟩ := h
  unfold Olm.share_device_step
  rw [if_neg (by rw [hself]; exact Bool.false_ne_true)]
  rcases Option.isSome_iff_exists.mp hsome with ⟨s, hs⟩
  simp only [hs]
  rw [if_pos htr]

theorem share_device_step_ok (lib : CryptoLib) (st : OlmState) (pd : Payload)
    (u : String) (d : OlmDevice) (acc : ToDevice)
    (h : ¬trustedEligible st d) :
    ∃ acc1, Olm.share_device_step lib st pd u d acc = .ok acc1 := by
  unfold Olm.share_device_step
  by_cases hself : (d.id == st.device_id) = true
  · exact ⟨acc, by rw [if_pos hself]⟩
  · have hself' : (d.id == st.device_id) = false := Bool.eq_false_iff.mpr hself
    rw [if_neg hself]
    cases hsess : st.session_store.get d.curve25519 with
    | none => exact ⟨acc, by simp only [hsess]⟩
    | some s =>
      by_cases htr : Olm.device_trusted st d = true
      · exact absurd ⟨hself', by rw [hsess]; rfl, htr⟩ h
      · refine ⟨tdSet acc u d.id
          { recipient := u, recipient_key := d.ed25519,
            sender_key := st.account.curve25519,
            target_curve25519 := d.curve25519,
            msg_type_is_prekey := (s.session.encryptMsg (lib.payloadToJson
              { pd with
                recipient := u, recipient_keys_ed25519 := d.ed25519 })).1,
            body := (s.session.encryptMsg (lib.payloadToJson
              { pd with
                recipient := u, recipient_keys_ed25519 := d.ed25519 })).2 }, ?_⟩
        simp only [hsess]
        rw [if_neg htr]

theorem shareDevices_err (lib : CryptoLib) (st : OlmState) (pd : Payload)
    (u : String) :
    ∀ (devs : List OlmDevice) (acc : ToDevice),
      (∃ d ∈ devs, trustedEligible st d) →
      shareDevices lib st pd u devs acc = .error .olmTrustError := by
  intro devs
  induction devs with
  | nil =>
    intro acc h
    rcases h with ⟨d, hd, -⟩
    cases hd
  | cons d rest ih =>
    intro acc h
    by_cases hbad : trustedEligible st d
    · rw [shareDevices, share_device_step_err lib st pd u d acc hbad]
    · obtain ⟨acc1, hstep⟩ := share_device_step_ok lib st pd u d acc hbad
      rw [shareDevices, hstep]
      rcases h with ⟨d0, hd0, hbad0⟩
      rcases List.mem_cons.mp hd0 with hd0 | hd0
      · exact absurd (hd0 ▸ hbad0) hbad
      · exact ih acc1 ⟨d0, hd0, hbad0⟩

theorem shareDevices_ok (lib : CryptoLib) (st : OlmState) (pd : Payload)
    (u : String) :
    ∀ (devs : List OlmDevice) (acc : ToDevice),
      (∀ d ∈ devs, ¬trustedEligible st d) →
      ∃ res, shareDevices lib st pd u devs acc = .ok res := by
  intro devs
  induction devs with
  | nil => intro acc _; exact ⟨acc, rfl⟩
  | cons d rest ih =>
    intro acc h
    obtain ⟨acc1, hstep⟩ :=
      share_device_step_ok lib st pd u d acc (h d (List.mem_cons_self _ _))
    obtain ⟨res, hres⟩ := ih acc1 (fun x hx => h x (List.mem_cons_of_mem _ hx))
    refine ⟨res, ?_⟩
    rw [shareDevices]
    simp only [hstep]
    exact hres

theorem shareUsers_ok (lib : CryptoLib) (st : OlmState) (pd : Payload) :
    ∀ (us : List String) (acc : ToDevice),
      (∀ u ∈ us, ∀ d ∈ st.devices.user_devices u, ¬trustedEligible st d) →
      ∃ res, shareUsers lib st pd us acc = .ok res := by
  intro us
  induction us with
  | nil => intro acc _; exact ⟨acc, rfl⟩
  | cons u0 rest ih =>
    intro acc h
    obtain ⟨acc1, hd⟩ := shareDevices_ok lib st pd u0
      (st.devices.user_devices u0) acc (h u0 (List.mem_cons_self _ _))
    obtain ⟨res, hres⟩ := ih acc1 (fun u hu => h u (List.mem_cons_of_mem _ hu))
    refine ⟨res, ?_⟩
    rw [shareUsers]
    simp only [hd]
    exact hres

theorem shareUsers_err (lib : CryptoLib) (st : OlmState) (pd : Payload) :
    ∀ (us : List String) (acc : ToDevice),
      (∃ u ∈ us, ∃ d ∈ st.devices.user_devices u, trustedEligible st d) →
      shareUsers lib st pd us acc = .error .olmTrustError := by
  intro us
  induction us with
  | nil =>
    intro acc h
    rcases h with ⟨u, hu, -⟩
    cases hu
  | cons u0 rest ih =>
    intro acc h
    by_cases hbad : ∃ d ∈ st.devices.user_devices u0, trustedEligible st d
    · rw [shareUsers, shareDevices_err lib st pd u0 _ acc hbad]
    · push_neg at hbad
      obtain ⟨acc1, hd⟩ := shareDevices_ok lib st pd u0
        (st.devices.user_devices u0) acc hbad
      rw [shareUsers, hd]
      rcases h with ⟨u, hu, hex⟩
      rcases List.mem_cons.mp hu with hu | hu
      · subst hu
        rcases hex with ⟨d, hd0, hbad0⟩
        exact absurd hbad0 (hbad d hd0)
      · exact ih acc1 ⟨u, hu, hex⟩

theorem tdGet_tdSet_self (m : ToDevice) (u dv : String) (v : DeviceMessage) :
    tdGet (tdSet m u dv v) u dv = some v := by
  unfold tdGet tdSet
  rw [alookup_aset_self]
  exact alookup_aset_self _ _ _

theorem tdGet_tdSet_isSome (m : ToDevice) (u' d' u dv : String)
    (v : DeviceMessage) (h : tdGet m u dv ≠ none) :
    tdGet (tdSet m u' d' v) u dv ≠ none := by
  by_cases hud : u = u' ∧ dv = d'
  · rw [hud.1, hud.2, tdGet_tdSet_self]
    exact Option.some_ne_none v
  · by_cases hu : u = u'
    · have hd : dv ≠ d' := fun hh => hud ⟨hu, hh⟩
      rw [tdGet_tdSet_ne v hd]
      exact h
    · unfold tdGet tdSet
      rw [alookup_aset_ne _ _ _ _ hu]
      exact h

theorem shareDevices_covers (lib : CryptoLib) (st : OlmState) (pd : Payload)
    (u : String) :
    ∀ (devs : List OlmDevice) (acc res : ToDevice),
      shareDevices lib st pd u devs acc = .ok res →
      (∀ u' dv, tdGet acc u' dv ≠ none → tdGet res u' dv ≠ none) ∧
      (∀ d ∈ devs, (d.id == st.device_id) = false →
        (st.session_store.get d.curve25519).isSome = true →
        Olm.device_trusted st d = false → tdGet res u d.id ≠ none) := by
  intro devs
  induction devs with
  | nil =>
    intro acc res h
    cases h
    exact ⟨fun _ _ hx => hx, fun d hd => absurd hd (List.not_mem_nil d)⟩
  | cons d rest ih =>
    intro acc res h
    rw [shareDevices] at h
    cases hstep : Olm.share_device_step lib st pd u d acc with
    | error e => rw [hstep] at h; cases h
    | ok acc1 =>
      rw [hstep] at h
      obtain ⟨mono1, cover1⟩ := ih acc1 res h
      have hstepmono : ∀ u' dv, tdGet acc u' dv ≠ none →
          tdGet acc1 u' dv ≠ none := by
        intro u' dv hx
        unfold Olm.share_device_step at hstep
        by_cases hself : (d.id == st.device_id) = true
        · rw [if_pos hself] at hstep; cases hstep; exact hx
        · rw [if_neg hself] at hstep
          cases hsess : st.session_store.get d.curve25519 with
          | none => simp only [hsess] at hstep; cases hstep; exact hx
          | some s =>
            simp only [hsess] at hstep
            by_cases htr : Olm.device_trusted st d = true
            · rw [if_pos htr] at hstep; cases hstep
            · rw [if_neg htr] at hstep
              cases hstep
              exact tdGet_tdSet_isSome acc u d.id u' dv _ hx
      refine ⟨fun u' dv hx => mono1 u' dv (hstepmono u' dv hx), ?_⟩
      intro d0 hd0 hself0 hsome0 htr0
      rcases List.mem_cons.mp hd0 with hd0 | hd0
      · subst hd0
        refine mono1 u d0.id ?_
        unfold Olm.share_device_step at hstep
        rw [if_neg (by rw [hself0]; exact Bool.false_ne_true)] at hstep
        rcases Option.isSome_iff_exists.mp hsome0 with ⟨s, hs⟩
        simp only [hs] at hstep
        rw [if_neg (by rw [htr0]; exact Bool.false_ne_true)] at hstep
        cases hstep
        rw [tdGet_tdSet_self]
        exact Option.some_ne_none _
      · exact cover1 d0 hd0 hself0 hsome0 htr0

theorem shareUsers_covers (lib : CryptoLib) (st : OlmState) (pd : Payload) :
    ∀ (us : List String) (acc res : ToDevice),
      shareUsers lib st pd us acc = .ok res →
      (∀ u' dv, tdGet acc u' dv ≠ none → tdGet res u' dv ≠ none) ∧
      (∀ u ∈ us, ∀ d ∈ st.devices.user_devices u,
        (d.id == st.device_id) = false →
        (st.session_store.get d.curve25519).isSome = true →
        Olm.device_trusted st d = false → tdGet res u d.id ≠ none) := by
  intro us
  induction us with
  | nil =>
    intro acc res h
    cases h
    exact ⟨fun _ _ hx => hx, fun u hu => absurd hu (List.not_mem_nil u)⟩
  | cons u0 rest ih =>
    intro acc res h
    rw [shareUsers] at h
    cases hd : shareDevices lib st pd u0 (st.devices.user_devices u0) acc with
    | error e => rw [hd] at h; cases h
    | ok acc1 =>
      rw [hd] at h
      obtain ⟨mono1, cover1⟩ := ih acc1 res h
      obtain ⟨dmono, dcover⟩ := shareDevices_covers lib st pd u0 _ acc acc1 hd
      refine ⟨fun u' dv hx => mono1 u' dv (dmono u' dv hx), ?_⟩
      intro u hu d hdm hself hsome htr
      rcases List.mem_cons.mp hu with hu | hu
      · subst hu
        exact mono1 u d.id (dcover d hdm hself hsome htr)
      · exact cover1 u hu d hdm hself hsome htr

/-- C5: with an outbound session present for the room, if some listed
user has a device that is not the engine's own, has a pairwise session and
whose fingerprint IS present in `trust_db` (`device_trusted` true), then
`share_group_session` raises `OlmTrustError`; and if no such device
exists, the call succeeds and every device that is not the engine's own,
has a pairwise session and is absent from `trust_db` receives an encrypted
to-device message. -/
theorem C5_trust_gate (lib : CryptoLib) (st : OlmState) (room_id : String)
    (users : List String) (gs : OutboundGroupSession)
    (hroom : alookup st.outbound_group_sessions room_id = some gs) :
    ((∃ u ∈ users, ∃ d ∈ st.devices.user_devices u, trustedEligible st d) →
      Olm.share_group_session lib st room_id users = .error .olmTrustError) ∧
    ((∀ u ∈ users, ∀ d ∈ st.devices.user_devices u, ¬trustedEligible st d) →
      ∃ td, Olm.share_group_session lib st room_id users = .ok td ∧
        ∀ u ∈ users, ∀ d ∈ st.devices.user_devices u,
          (d.id == st.device_id) = false →
          (st.session_store.get d.curve25519).isSome = true →
          Olm.device_trusted st d = false → tdGet td u d.id ≠ none) := by
  constructor
  · intro hex
    unfold Olm.share_group_session
    rw [hroom]
    exact shareUsers_err lib st _ users [] hex
  · intro hall
    unfold Olm.share_group_session
    rw [hroom]
    obtain ⟨td, htd⟩ := shareUsers_ok lib st
      ⟨"m.room_key", st.user_id, st.device_id, "", "", st.account.ed25519,
        ⟨"m.megolm.v1.aes-sha2", room_id, gs.sid, gs.session_key,
          gs.message_index⟩⟩ users [] hall
    exact ⟨td, htd, fun u hu d hd h1 h2 h3 =>
      (shareUsers_covers lib st _ users [] td htd).2 u hu d hd h1 h2 h3⟩

def c5dev : OlmDevice := ⟨"@bob:example.org", "BOBDEV", "bob_ed", "bob_curve"⟩

def c5sess : OlmSession :=
  ⟨"@bob:example.org", "BOBDEV", "bob_curve",
    ⟨"C5SID", fun _ => false, fun _ => .error .olmSessionError,
      fun _ => (false, "ct")⟩⟩

/-- An engine state where bob's device is known, has a pairwise session,
and its fingerprint is present in the trust store. -/
def c5state : OlmState :=
  { baseState with
    devices := ⟨[c5dev], ⟨[], []⟩⟩,
    session_store := ⟨[("bob_curve", [c5sess])]⟩,
    trust_db := ⟨[⟨"@bob:example.org", "BOBDEV", "bob_ed"⟩],
      [⟨"@bob:example.org", "BOBDEV", "bob_ed"⟩]⟩,
    outbound_group_sessions := [("!c5:x", ⟨"C5OGS", "C5KEY", 0⟩)] }

theorem C5_witness :
    Olm.share_group_session baseLib c5state "!c5:x" ["@bob:example.org"] =
      .error .olmTrustError :=
  (C5_trust_gate baseLib c5state "!c5:x" ["@bob:example.org"]
      ⟨"C5OGS", "C5KEY", 0⟩ rfl).1
    ⟨"@bob:example.org", List.mem_cons_self _ _, c5dev, by decide, rfl, rfl, rfl⟩

/-! ### C6: lazy outbound creation is supposed to install a matching
inbound group session -/

theorem igsGet_igsSet_self (m : IGS) (room sid : String)
    (v : InboundGroupSessionObj) :
    igsGet (igsSet m room sid v) room sid = some v := by
  unfold igsGet igsSet
  rw [alookup_aset_self]
  exact alookup_aset_self _ _ _

/-- C6 evaluation: calling `group_encrypt` for a room with no outbound
group session stores the fresh outbound session, but the nested
`create_group_session(room_id, session.id, session.session_key)` call
passes three positional arguments to a five-parameter method, so the call
raises `TypeError`: `group_encrypt` aborts, and no inbound group session
is installed under `(room_id, session.id)` — the sender cannot decrypt its
own ciphertexts. -/
theorem C6_outbound_creation_type_error :
    (Olm.group_encrypt baseLib baseState ⟨"C6SID", "C6KEY", 0⟩
        "!c6:x" [] []).2 = .error .typeError ∧
      alookup (Olm.group_encrypt baseLib baseState ⟨"C6SID", "C6KEY", 0⟩
          "!c6:x" [] []).1.outbound_group_sessions "!c6:x" =
        some ⟨"C6SID", "C6KEY", 0⟩ ∧
      igsGet (Olm.group_encrypt baseLib baseState ⟨"C6SID", "C6KEY", 0⟩
          "!c6:x" [] []).1.inbound_group_sessions "!c6:x" "C6SID" = none :=
  ⟨rfl, rfl, rfl⟩

/-! ### C7: duplicate inbound group session installs -/

/-- A library whose Megolm id derivation prefixes the key, so that matching
and mismatching (session_id, session_key) pairs can be built. -/
def c7lib : CryptoLib := { baseLib with groupId := fun k => "GID" ++ k }

def c7state1 : OlmState :=
  Olm.create_group_session c7lib baseState "SENDERA" "FPA" "!c7:x" "GIDKK" "KK"

def c7state2 : OlmState :=
  Olm.create_group_session c7lib c7state1 "SENDERB" "FPB" "!c7:x" "GIDKK" "KK"

/-- C7 counterexample: two successfully constructed installs under the same
`(room_id, session_id)`: after the second call the stored session carries
the second sender's metadata — the later arrival replaced the earlier one,
so "first write wins, duplicates ignored" is false. -/
theorem C7_counterexample :
    (igsGet c7state1.inbound_group_sessions "!c7:x" "GIDKK").map
        (fun s => s.sender_key) = some (some "SENDERA") ∧
      (igsGet c7state2.inbound_group_sessions "!c7:x" "GIDKK").map
        (fun s => s.sender_key) = some (some "SENDERB") :=
  ⟨rfl, rfl⟩

/-- C7 amended: installation under an existing `(room_id, session_id)` key
is last-write-wins — a later arrival that constructs successfully (its
derived id equals the given session id) replaces the stored session; only
arrivals whose derived id mismatches the session id are ignored. -/
theorem C7_group_session_last_write (lib : CryptoLib) (st : OlmState)
    (sk1 fk1 sk2 fk2 room_id session_id key1 key2 : String)
    (h2 : lib.groupId key2 = session_id) :
    igsGet (Olm.create_group_session lib
          (Olm.create_group_session lib st sk1 fk1 room_id session_id key1)
          sk2 fk2 room_id session_id key2).inbound_group_sessions
        room_id session_id =
      some { sid := lib.groupId key2, session_key := key2,
             sender_key := some sk2, sender_fp_key := some fk2,
             room_id_attr := some room_id } ∧
    ∀ sk3 fk3 key3, lib.groupId key3 ≠ session_id →
      Olm.create_group_session lib st sk3 fk3 room_id session_id key3 = st := by
  constructor
  · have hbne : (lib.groupId key2 != session_id) = false := by
      rw [bne_eq_false_iff_eq]
      exact h2
    conv_lhs =>
      rw [Olm.create_group_session]
    rw [if_neg (by rw [hbne]; exact Bool.false_ne_true)]
    exact igsGet_igsSet_self _ _ _ _
  · intro sk3 fk3 key3 h3
    unfold Olm.create_group_session
    rw [if_pos (bne_iff_ne.mpr h3)]

theorem C7_witness :
    igsGet c7state2.inbound_group_sessions "!c7:x" "GIDKK" =
      some { sid := "GIDKK", session_key := "KK",
             sender_key := some "SENDERB", sender_fp_key := some "FPB",
             room_id_attr := some "!c7:x" } :=
  (C7_group_session_last_write c7lib baseState "SENDERA" "FPA" "SENDERB" "FPB"
    "!c7:x" "GIDKK" "KK" "KK" rfl).1

/-! ### C8: group sessions are shared at most once -/

/-- The lazy creation path always raises `TypeError` (C6), after having
stored the fresh outbound session. -/
theorem create_outbound_always_type_error (lib : CryptoLib) (st : OlmState)
    (fresh : OutboundGroupSession) (room_id : String) :
    Olm.create_outbound_group_session lib st fresh room_id =
      ({ st with
          outbound_group_sessions := aset st.outbound_group_sessions room_id fresh },
        .error .typeError) := rfl

theorem nodup_append_single {l : List String} {x : String}
    (h : l.Nodup) (hx : x ∉ l) : (l ++ [x]).Nodup := by
  rw [List.nodup_append]
  refine ⟨h, List.nodup_singleton x, ?_⟩
  intro a ha hax
  rw [List.mem_singleton] at hax
  exact hx (hax ▸ ha)

/-- C8: a single `group_encrypt` call never introduces a duplicate into
`shared_sessions` (so any call sequence keeps it duplicate-free); when the
room's outbound session exists and its id is not yet shared, a successful
share returns that to-device payload and appends exactly the session id;
when the id is already in `shared_sessions`, the call returns
`to_device_payload = none` and leaves `shared_sessions` unchanged. -/
theorem C8_group_encrypt_share_once (lib : CryptoLib) (st : OlmState)
    (fresh gs : OutboundGroupSession) (room_id : String)
    (ptx : List (String × String)) (users : List String) :
    (st.shared_sessions.Nodup →
      (Olm.group_encrypt lib st fresh room_id ptx users).1.shared_sessions.Nodup) ∧
    (alookup st.outbound_group_sessions room_id = some gs →
      gs.sid ∉ st.shared_sessions →
      ∀ td, Olm.share_group_session lib st room_id users = .ok td →
        (Olm.group_encrypt lib st fresh room_id ptx users).1.shared_sessions =
            st.shared_sessions ++ [gs.sid] ∧
          ∃ payload, (Olm.group_encrypt lib st fresh room_id ptx users).2 =
            .ok (payload, some td)) ∧
    (alookup st.outbound_group_sessions room_id = some gs →
      gs.sid ∈ st.shared_sessions →
      (Olm.group_encrypt lib st fresh room_id ptx users).1.shared_sessions =
          st.shared_sessions ∧
        ∃ payload, (Olm.group_encrypt lib st fresh room_id ptx users).2 =
          .ok (payload, none)) := by
  refine ⟨?_, ?_, ?_⟩
  · intro hnd
    unfold Olm.group_encrypt
    cases hroom : alookup st.outbound_group_sessions room_id with
    | none =>
      simp only [hroom, Option.isNone_none, if_true,
        create_outbound_always_type_error]
      exact hnd
    | some gs0 =>
      simp only [hroom, Option.isNone_some, Bool.false_eq_true, if_false]
      by_cases hc : st.shared_sessions.contains gs0.sid = true
      · simp only [hc, Bool.not_true, Bool.false_eq_true, if_false]
        exact hnd
      · have hcf : st.shared_sessions.contains gs0.sid = false :=
          Bool.eq_false_iff.mpr hc
        simp only [hcf, Bool.not_false, if_true]
        cases hsh : Olm.share_group_session lib st room_id users with
        | error e => simp only [hsh]; exact hnd
        | ok td =>
          simp only [hsh]
          refine nodup_append_single hnd ?_
          intro hmem
          exact hc (by simpa using hmem)
  · intro hroom hmem td htd
    have hcf : st.shared_sessions.contains gs.sid = false := by
      rw [Bool.eq_false_iff]
      intro hc
      exact hmem (by simpa using hc)
    unfold Olm.group_encrypt
    simp only [hroom, Option.isNone_some, Bool.false_eq_true, if_false, hcf,
      Bool.not_false, if_true, htd]
    exact ⟨trivial, _, rfl⟩
  · intro hroom hmem
    have hc : st.shared_sessions.contains gs.sid = true := by simpa using hmem
    unfold Olm.group_encrypt
    simp only [hroom, Option.isNone_some, Bool.false_eq_true, if_false, hc,
      Bool.not_true]
    exact ⟨trivial, _, rfl⟩

/-- An engine state whose room already has an outbound session that was
already shared. -/
def c8state : OlmState :=
  { baseState with
    outbound_group_sessions := [("!c8:x", ⟨"C8SID", "C8KEY", 0⟩)],
    shared_sessions := ["C8SID"] }

theorem C8_witness :
    (Olm.group_encrypt baseLib c8state ⟨"F", "F", 0⟩
        "!c8:x" [] []).1.shared_sessions = ["C8SID"] ∧
      ∃ payload, (Olm.group_encrypt baseLib c8state ⟨"F", "F", 0⟩
          "!c8:x" [] []).2 = .ok (payload, none) :=
  (C8_group_encrypt_share_once baseLib c8state ⟨"F", "F", 0⟩
      ⟨"C8SID", "C8KEY", 0⟩ "!c8:x" [] []).2.2 rfl (List.mem_singleton.mpr rfl)

/-! ### C1: persistence of a newly created inbound session -/

/-- After `add`, the store's list for the session's peer contains a session
equal (under `OlmSession.__eq__`) to the added one. -/
theorem SessionStore.add_registers (st : SessionStore) (s : OlmSession) :
    ((st.add s).1.lookup s.identity_key).any (fun x => olmSessionEq s x) = true := by
  unfold SessionStore.add
  by_cases h : (st.lookup s.identity_key).any (fun x => olmSessionEq s x) = true
  · rw [if_pos h]; exact h
  · rw [if_neg h, SessionStore.lookup_mk_aset]
    refine List.any_eq_true.mpr ⟨s, ?_, olmSessionEq_refl s⟩
    rw [(List.perm_insertionSort sessionOrder _).mem_iff]
    exact List.mem_append_right _ (List.mem_singleton.mpr rfl)

/-- The `finally` block with a created session: the session is registered
in the session store and its row inserted into the database. -/
theorem finalize_new_session_registers (st : OlmState)
    (sender sender_device sender_key : String) (s : Session) :
    (((Olm.finalize_new_session st sender sender_device sender_key
          (some s)).session_store.lookup sender_key).any
        (fun x => olmSessionEq ⟨sender, sender_device, sender_key, s⟩ x) = true) ∧
      (⟨sender, sender_device, sender_key, s.sid, s⟩ : SessionRow) ∈
        (Olm.finalize_new_session st sender sender_device sender_key
          (some s)).database.olmsessions := by
  exact ⟨SessionStore.add_registers st.session_store _,
    List.mem_append_right _ (List.mem_singleton.mpr rfl)⟩

/-- `_verify_olm_payload` has exactly three outcomes. -/
theorem verify_olm_payload_cases (st : OlmState) (sender : String)
    (p : Payload) :
    Olm.verify_olm_payload st sender p = .error .verificationError ∨
      Olm.verify_olm_payload st sender p = .error .olmTrustError ∨
      Olm.verify_olm_payload st sender p = .ok true := by
  unfold Olm.verify_olm_payload
  split_ifs with ha hb hc
  · exact Or.inl rfl
  · exact Or.inl rfl
  · exact Or.inl rfl
  · cases hk : st.devices.verify_key ⟨sender, p.sender_device, p.keys_ed25519⟩ with
    | error e => simp only [hk]; exact Or.inr (Or.inl trivial)
    | ok verified =>
      simp only [hk]
      by_cases hv : (!verified) = true
      · exact Or.inl (if_pos hv)
      · exact Or.inr (Or.inr (if_neg hv))

/-- C1 amended: when the new inbound session's plaintext is non-empty,
parses as JSON and passes the olm-event schema, the session is registered
in the session store and inserted into the database whatever the outcome
of payload verification and event handling; `decrypt` returns normally.
(When parsing or schema validation fails the session is dropped — see the
counterexample.) -/
theorem C1_new_session_persisted (lib : CryptoLib) (st : OlmState)
    (sender sender_key body ptxt : String) (s : Session) (parsed : Payload)
    (h1 : Olm.try_decrypt st sender sender_key (.preKey body) = .ok none)
    (h2 : lib.newInbound st.account sender_key (.preKey body) = .ok s)
    (h3 : s.decryptMsg (.preKey body) = .ok ptxt)
    (h4 : (ptxt == "") = false)
    (h5 : lib.parse ptxt = some parsed)
    (h6 : lib.validOlmEvent parsed = true) :
    (Olm.decrypt lib st sender sender_key (.preKey body)).2 = .ok () ∧
      ((SessionStore.lookup
            (Olm.decrypt lib st sender sender_key (.preKey body)).1.session_store
            sender_key).any
          (fun x => olmSessionEq ⟨sender, parsed.sender_device, sender_key, s⟩ x)
        = true) ∧
      (⟨sender, parsed.sender_device, sender_key, s.sid, s⟩ : SessionRow) ∈
        (Olm.decrypt lib st sender sender_key
          (.preKey body)).1.database.olmsessions := by
  have hci : Olm.create_inbound_session lib st sender sender_key (.preKey body) =
      (Olm.save_account { st with account := lib.removeOneTimeKeys st.account s }
        false, .ok s) := by
    unfold Olm.create_inbound_session
    rw [h2]
  simp only [Olm.decrypt, h1, hci, h3, Olm.decrypt_with_plaintext, h4,
    Bool.false_eq_true, if_false, h5, h6, Bool.not_true]
  rcases verify_olm_payload_cases
      (Olm.save_account { st with account := lib.removeOneTimeKeys st.account s }
        false) sender parsed with hv | hv | hv <;>
    simp only [hv] <;>
    exact ⟨trivial, (finalize_new_session_registers _ sender parsed.sender_device
        sender_key s).1,
      (finalize_new_session_registers _ sender parsed.sender_device
        sender_key s).2⟩

/-- A session whose decrypted plaintext is not valid JSON. -/
def c1sess : Session :=
  ⟨"C1SID", fun _ => false, fun _ => .ok "not json", fun _ => (false, "")⟩

/-- A library where the plaintext fails JSON parsing, and inbound-session
creation succeeds and consumes the account's one-time keys. -/
def c1lib : CryptoLib :=
  { baseLib with
    newInbound := fun _ _ _ => .ok c1sess,
    removeOneTimeKeys := fun a _ => { a with one_time_keys := [] } }

/-- C1 counterexample: a pre-key message creates a new inbound session in
step 2 (the one-time key is consumed: the account's pool became empty),
the decrypted plaintext fails JSON parsing, and `decrypt` returns with the
session store still empty and no session row in the database — the new
session was neither registered nor persisted. -/
theorem C1_counterexample :
    (Olm.decrypt c1lib baseState "@bob:example.org" "BKEY" (.preKey "m")).2 =
        .ok () ∧
      (Olm.decrypt c1lib baseState "@bob:example.org" "BKEY"
          (.preKey "m")).1.account.one_time_keys = [] ∧
      (Olm.decrypt c1lib baseState "@bob:example.org" "BKEY"
          (.preKey "m")).1.session_store.entries = [] ∧
      (Olm.decrypt c1lib baseState "@bob:example.org" "BKEY"
          (.preKey "m")).1.database.olmsessions = [] :=
  ⟨rfl, rfl, rfl, rfl⟩

/-- A schema-valid room-key payload from bob. -/
def c1okPayload : Payload :=
  ⟨"m.room_key", "@bob:example.org", "BOBDEV", "@alice:example.org",
    "alice_ed", "bob_ed", ⟨"m.megolm.v1.aes-sha2", "!c1:x", "GSID", "GSID", 0⟩⟩

def c1wsess : Session :=
  ⟨"C1WSID", fun _ => false, fun _ => .ok "payload", fun _ => (false, "")⟩

def c1wlib : CryptoLib :=
  { baseLib with
    newInbound := fun _ _ _ => .ok c1wsess,
    removeOneTimeKeys := fun a _ => { a with one_time_keys := [] },
    parse := fun _ => some c1okPayload,
    validOlmEvent := fun _ => true }

theorem C1_witness :
    (Olm.decrypt c1wlib baseState "@bob:example.org" "BKEY" (.preKey "m")).2 =
        .ok () ∧
      ((SessionStore.lookup
            (Olm.decrypt c1wlib baseState "@bob:example.org" "BKEY"
              (.preKey "m")).1.session_store "BKEY").any
          (fun x =>
            olmSessionEq ⟨"@bob:example.org", "BOBDEV", "BKEY", c1wsess⟩ x)
        = true) ∧
      (⟨"@bob:example.org", "BOBDEV", "BKEY", "C1WSID", c1wsess⟩ : SessionRow) ∈
        (Olm.decrypt c1wlib baseState "@bob:example.org" "BKEY"
          (.preKey "m")).1.database.olmsessions :=
  C1_new_session_persisted c1wlib baseState "@bob:example.org" "BKEY" "m"
    "payload" c1wsess c1okPayload rfl rfl rfl rfl rfl rfl

/-! ### C2: save/load round trip -/

/-- The `(identity_key, session_id)` key of an `olmsessions` row. -/
def keyPair (r : SessionRow) : String × String := (r.identity_key, r.session_id)

/-- The `(identity_key, id-of-pickle)` pair of an `olmsessions` row — what
`load` actually reconstructs. -/
def rowPairPickle (r : SessionRow) : String × String :=
  (r.identity_key, r.pickle.sid)

def dbSessionKeyPairs (db : Database) : List (String × String) :=
  db.olmsessions.map keyPair

def dbGroupPairs (db : Database) : List (String × String) :=
  db.inbound_group_sessions.map (fun r => (r.room_id, r.pickle.sid))

/-- The invariant the engine maintains on `olmsessions` rows: the pickled
session's stable id equals the row's `session_id` column. -/
def dbWellFormed (db : Database) : Prop :=
  ∀ r ∈ db.olmsessions, r.pickle.sid = r.session_id

theorem keyPair_updRow (s : OlmSession) (r : SessionRow) :
    keyPair (updRow s r) = keyPair r := by
  unfold updRow keyPair
  split_ifs <;> rfl

theorem wf_updRow (s : OlmSession) (r : SessionRow)
    (h : r.pickle.sid = r.session_id) :
    (updRow s r).pickle.sid = (updRow s r).session_id := by
  unfold updRow
  split_ifs with hc
  · exact hc.2.2.2.symm
  · exact h

theorem alookup_update_value {β : Type} (m : List (String × β)) (u : String)
    (a : β) (h : (alookup m u).isSome = true) :
    alookup (m.map (fun r => if r.1 = u then (r.1, a) else r)) u = some a := by
  induction m with
  | nil => simp [alookup] at h
  | cons e rest ih =>
    by_cases he : e.1 = u
    · rw [List.map_cons, if_pos he, alookup, if_pos he]
    · rw [alookup, if_neg he] at h
      rw [List.map_cons, if_neg he, alookup, if_neg he]
      exact ih h

theorem save_session_false_eq (st : OlmState) (s : OlmSession) :
    Olm.save_session st s false = { st with
      database := { st.database with
        olmsessions := st.database.olmsessions.map (updRow s) } } := rfl

theorem save_account_false_eq (st : OlmState) :
    Olm.save_account st false = { st with
      database := { st.database with
        olmaccount := st.database.olmaccount.map (fun r =>
          if r.1 = st.user_id then (r.1, st.account) else r) } } := rfl

theorem save_fold_effects (ss : List OlmSession) :
    ∀ st : OlmState,
      (ss.foldl (fun acc s => Olm.save_session acc s false) st).user_id =
          st.user_id ∧
        (ss.foldl (fun acc s => Olm.save_session acc s false) st).account =
          st.account ∧
        (ss.foldl (fun acc s =>
            Olm.save_session acc s false) st).database.olmaccount =
          st.database.olmaccount ∧
        (ss.foldl (fun acc s =>
              Olm.save_session acc s false) st).database.inbound_group_sessions =
          st.database.inbound_group_sessions ∧
        ((ss.foldl (fun acc s =>
              Olm.save_session acc s false) st).database.olmsessions.map keyPair =
          st.database.olmsessions.map keyPair) ∧
        (dbWellFormed st.database →
          dbWellFormed (ss.foldl (fun acc s =>
            Olm.save_session acc s false) st).database) := by
  induction ss with
  | nil => intro st; exact ⟨rfl, rfl, rfl, rfl, rfl, fun h => h⟩
  | cons s rest ih =>
    intro st
    rw [List.foldl_cons]
    obtain ⟨h1, h2, h3, h4, h5, h6⟩ := ih (Olm.save_session st s false)
    have hmm : (Olm.save_session st s false).database.olmsessions.map keyPair =
        st.database.olmsessions.map keyPair := by
      rw [save_session_false_eq]
      simp only [List.map_map]
      exact List.map_congr_left (fun r _ => keyPair_updRow s r)
    have hwfM : dbWellFormed st.database →
        dbWellFormed (Olm.save_session st s false).database := by
      intro hwf r hr
      rcases List.mem_map.mp hr with ⟨r0, hr0, hup⟩
      subst hup
      exact wf_updRow s r0 (hwf r0 hr0)
    exact ⟨h1, h2, h3, h4, h5.trans hmm, fun hwf => h6 (hwfM hwf)⟩

/-- Net effect of `Olm.save` on the database and engine identity. -/
theorem save_db (st : OlmState)
    (hacc : (alookup st.database.olmaccount st.user_id).isSome = true) :
    (Olm.save st).user_id = st.user_id ∧
      (Olm.save st).account = st.account ∧
      alookup (Olm.save st).database.olmaccount st.user_id = some st.account ∧
      ((Olm.save st).database.olmsessions.map keyPair =
        st.database.olmsessions.map keyPair) ∧
      (Olm.save st).database.inbound_group_sessions =
        st.database.inbound_group_sessions ∧
      (dbWellFormed st.database → dbWellFormed (Olm.save st).database) := by
  unfold Olm.save
  obtain ⟨h1, h2, h3, h4, h5, h6⟩ :=
    save_fold_effects ((Olm.save_account st false).session_store.all)
      (Olm.save_account st false)
  refine ⟨h1, h2, ?_, h5.trans ?_, h4.trans ?_, fun hwf => h6 ?_⟩
  · rw [h3, save_account_false_eq]
    exact alookup_update_value st.database.olmaccount st.user_id st.account hacc
  · rw [save_account_false_eq]
  · rw [save_account_false_eq]
  · rw [save_account_false_eq]
    exact hwf

theorem storePairs_empty : storePairs ⟨[]⟩ = [] := rfl

theorem load_session_fold_pairs (rows : List SessionRow) :
    ∀ (st : OlmState) (p : String × String),
      (p ∈ storePairs (rows.foldl loadSessionRow st).session_store ↔
        p ∈ storePairs st.session_store ∨ p ∈ rows.map rowPairPickle) := by
  induction rows with
  | nil => intro st p; simp
  | cons r rest ih =>
    intro st p
    rw [List.foldl_cons, ih (loadSessionRow st r) p]
    have hadd : p ∈ storePairs (loadSessionRow st r).session_store ↔
        p ∈ storePairs st.session_store ∨ p = rowPairPickle r :=
      storePairs_add st.session_store
        ⟨r.user, r.device_id, r.identity_key, r.pickle⟩ p
    rw [hadd, List.map_cons, List.mem_cons]
    tauto

theorem load_session_fold_fields (rows : List SessionRow) :
    ∀ st : OlmState,
      (rows.foldl loadSessionRow st).account = st.account ∧
        (rows.foldl loadSessionRow st).inbound_group_sessions =
          st.inbound_group_sessions ∧
        (rows.foldl loadSessionRow st).database = st.database := by
  induction rows with
  | nil => intro st; exact ⟨rfl, rfl, rfl⟩
  | cons r rest ih => intro st; exact ih (loadSessionRow st r)

theorem akeys_aset_mem {β : Type} (m : List (String × β)) (k q : String)
    (v : β) : q ∈ (aset m k v).map Prod.fst ↔ q ∈ m.map Prod.fst ∨ q = k := by
  induction m with
  | nil => simp [aset]
  | cons e rest ih =>
    by_cases he : e.1 = k
    · rw [aset, if_pos he]
      simp only [List.map_cons, List.mem_cons]
      rw [he]
      tauto
    · rw [aset, if_neg he]
      simp only [List.map_cons, List.mem_cons]
      rw [ih]
      tauto

theorem igsPairs_cons (e : String × List (String × InboundGroupSessionObj))
    (rest : IGS) :
    igsPairs (e :: rest) = e.2.map (fun x => (e.1, x.1)) ++ igsPairs rest := rfl

theorem mem_pairs_iff {β : Type} (room : String) (l : List (String × β))
    (p : String × String) :
    p ∈ l.map (fun x => (room, x.1)) ↔ p.1 = room ∧ p.2 ∈ l.map Prod.fst := by
  rcases p with ⟨a, b⟩
  simp only [List.mem_map, Prod.mk.injEq]
  constructor
  · rintro ⟨x, hx, h1, h2⟩
    exact ⟨h1.symm, x, hx, h2⟩
  · rintro ⟨h1, x, hx, h2⟩
    exact ⟨x, hx, h1.symm, h2⟩

theorem igsPairs_igsSet (m : IGS) (room sid : String)
    (v : InboundGroupSessionObj) (p : String × String) :
    p ∈ igsPairs (igsSet m room sid v) ↔
      p ∈ igsPairs m ∨ p = (room, sid) := by
  induction m with
  | nil =>
    show p ∈ igsPairs [(room, aset [] sid v)] ↔ _
    rw [igsPairs_cons]
    simp only [igsPairs, List.flatMap_nil, List.append_nil, aset]
    rw [mem_pairs_iff]
    simp [Prod.ext_iff]
  | cons e rest ih =>
    by_cases he : e.1 = room
    · have h1 : igsSet (e :: rest) room sid v =
          (room, aset e.2 sid v) :: rest := by
        unfold igsSet
        rw [show alookup (e :: rest) room = some e.2 from by
          rw [alookup, if_pos he]]
        show aset (e :: rest) room (aset e.2 sid v) = _
        rw [aset, if_pos he]
      rw [h1, igsPairs_cons, igsPairs_cons, List.mem_append, List.mem_append,
        mem_pairs_iff, mem_pairs_iff, akeys_aset_mem, he, Prod.ext_iff]
      tauto
    · have h1 : igsSet (e :: rest) room sid v =
          e :: igsSet rest room sid v := by
        unfold igsSet
        rw [show alookup (e :: rest) room = alookup rest room from by
          rw [alookup, if_neg he]]
        show aset (e :: rest) room _ = _
        rw [aset, if_neg he]
      rw [h1, igsPairs_cons, igsPairs_cons, List.mem_append, List.mem_append,
        ih]
      tauto

theorem load_group_fold_pairs (rows : List GroupRow) :
    ∀ (st : OlmState) (p : String × String),
      (p ∈ igsPairs (rows.foldl loadGroupRow st).inbound_group_sessions ↔
        p ∈ igsPairs st.inbound_group_sessions ∨
          p ∈ rows.map (fun r => (r.room_id, r.pickle.sid))) := by
  induction rows with
  | nil => intro st p; simp
  | cons r rest ih =>
    intro st p
    rw [List.foldl_cons, ih (loadGroupRow st r) p]
    have hset : p ∈ igsPairs (loadGroupRow st r).inbound_group_sessions ↔
        p ∈ igsPairs st.inbound_group_sessions ∨ p = (r.room_id, r.pickle.sid) :=
      igsPairs_igsSet st.inbound_group_sessions r.room_id _ _ p
    rw [hset, List.map_cons, List.mem_cons]
    tauto

theorem load_group_fold_fields (rows : List GroupRow) :
    ∀ st : OlmState,
      (rows.foldl loadGroupRow st).account = st.account ∧
        (rows.foldl loadGroupRow st).session_store = st.session_store := by
  induction rows with
  | nil => intro st; exact ⟨rfl, rfl⟩
  | cons r rest ih => intro st; exact ih (loadGroupRow st r)

/-- What `Olm.load` produces on a state whose account row resolves. -/
theorem load_spec (st0 : OlmState) (a : Account)
    (hl : alookup st0.database.olmaccount st0.user_id = some a) :
    (Olm.load st0).2 = .ok () ∧
      (Olm.load st0).1.account = a ∧
      (∀ p, p ∈ storePairs (Olm.load st0).1.session_store ↔
        p ∈ storePairs st0.session_store ∨
          p ∈ st0.database.olmsessions.map rowPairPickle) ∧
      (∀ p, p ∈ igsPairs (Olm.load st0).1.inbound_group_sessions ↔
        p ∈ igsPairs st0.inbound_group_sessions ∨
          p ∈ dbGroupPairs st0.database) := by
  unfold Olm.load
  rw [hl]
  dsimp only
  have hsf := load_session_fold_fields st0.database.olmsessions
    { st0 with account := a }
  have hgf := load_group_fold_fields
    ((st0.database.olmsessions.foldl loadSessionRow
      { st0 with account := a }).database.inbound_group_sessions)
    (st0.database.olmsessions.foldl loadSessionRow { st0 with account := a })
  refine ⟨rfl, hgf.1.trans hsf.1, ?_, ?_⟩
  · intro p
    rw [hgf.2]
    exact load_session_fold_pairs st0.database.olmsessions
      { st0 with account := a } p
  · intro p
    have hrows :
        (st0.database.olmsessions.foldl loadSessionRow
          { st0 with account := a }).database.inbound_group_sessions =
        st0.database.inbound_group_sessions := by
      rw [hsf.2.2]
    have hgp := load_group_fold_pairs
      ((st0.database.olmsessions.foldl loadSessionRow
        { st0 with account := a }).database.inbound_group_sessions)
      (st0.database.olmsessions.foldl loadSessionRow { st0 with account := a })
      p
    rw [hgp, hsf.2.1, hrows]
    rfl

/-- C2 amended: `save(); load()` (reopening the engine over the same
database) restores the account — hence its identity keys — and restores
exactly the pairwise-session pairs recorded in the `olmsessions` table,
which coincide with the in-memory `(peer_curve25519, session_id)` pairs
whenever every stored session has its row (the invariant the engine
maintains).  The inbound-group-session pairs after reopening are exactly
the `inbound_group_sessions` table rows — and since neither
`create_group_session` (whose persist call is commented out) nor `save()`
writes that table, sessions installed only in memory are lost (see the
counterexample). -/
theorem C2_save_load_roundtrip (st : OlmState)
    (hacc : (alookup st.database.olmaccount st.user_id).isSome = true)
    (hwf : dbWellFormed st.database) :
    (Olm.reopen (Olm.save st)).2 = .ok () ∧
      (Olm.reopen (Olm.save st)).1.account = st.account ∧
      (∀ p, p ∈ storePairs (Olm.reopen (Olm.save st)).1.session_store ↔
        p ∈ dbSessionKeyPairs st.database) ∧
      ((∀ p, p ∈ dbSessionKeyPairs st.database ↔
          p ∈ storePairs st.session_store) →
        ∀ p, p ∈ storePairs (Olm.reopen (Olm.save st)).1.session_store ↔
          p ∈ storePairs st.session_store) ∧
      (∀ p, p ∈ igsPairs (Olm.reopen (Olm.save st)).1.inbound_group_sessions ↔
        p ∈ dbGroupPairs st.database) := by
  obtain ⟨h1, h2, h3, h4, h5, h6⟩ := save_db st hacc
  obtain ⟨g0, g1, g2, g3⟩ := load_spec
    { Olm.save st with
      session_store := ⟨[]⟩, inbound_group_sessions := [],
      outbound_group_sessions := [], shared_sessions := [], olm_queue := [] }
    st.account (by
      show alookup (Olm.save st).database.olmaccount (Olm.save st).user_id = _
      rw [h1]; exact h3)
  have hmap : (Olm.save st).database.olmsessions.map rowPairPickle =
      dbSessionKeyPairs st.database := by
    have hw := h6 hwf
    have hstep : (Olm.save st).database.olmsessions.map rowPairPickle =
        (Olm.save st).database.olmsessions.map keyPair :=
      List.map_congr_left (fun r hr => by
        unfold rowPairPickle keyPair
        rw [hw r hr])
    exact hstep.trans h4
  have hc3 : ∀ p,
      p ∈ storePairs (Olm.reopen (Olm.save st)).1.session_store ↔
        p ∈ dbSessionKeyPairs st.database := by
    intro p
    refine (g2 p).trans ?_
    rw [show storePairs (⟨[]⟩ : SessionStore) = [] from rfl]
    rw [show ({ Olm.save st with
        session_store := ⟨[]⟩, inbound_group_sessions := [],
        outbound_group_sessions := [], shared_sessions := [],
        olm_queue := [] } : OlmState).database.olmsessions.map rowPairPickle =
      dbSessionKeyPairs st.database from hmap]
    simp
  have hc5 : ∀ p,
      p ∈ igsPairs (Olm.reopen (Olm.save st)).1.inbound_group_sessions ↔
        p ∈ dbGroupPairs st.database := by
    intro p
    refine (g3 p).trans ?_
    rw [show dbGroupPairs ({ Olm.save st with
        session_store := ⟨[]⟩, inbound_group_sessions := [],
        outbound_group_sessions := [], shared_sessions := [],
        olm_queue := [] } : OlmState).database = dbGroupPairs st.database from by
      unfold dbGroupPairs
      show (Olm.save st).database.inbound_group_sessions.map _ = _
      rw [h5]]
    simp [igsPairs]
  exact ⟨g0, g1, hc3,
    fun hdb p => (hc3 p).trans (hdb p), hc5⟩

/-- An engine that has just installed an inbound group session via
`create_group_session` (which does not persist it — the call is commented
out in the source). -/
def c2state : OlmState :=
  Olm.create_group_session baseLib baseState "BKEY" "bob_ed" "!c2:x" "C2GSID"
    "C2GSID"

/-- C2 counterexample: the installed inbound group session is present in
memory, `save()` runs and `load()` succeeds on reopening, yet the reopened
engine has no inbound group sessions at all: the `(room_id, session_id)`
pair installed before `save()` is not present after `load()`. -/
theorem C2_counterexample :
    (igsGet c2state.inbound_group_sessions "!c2:x" "C2GSID").isSome = true ∧
      (Olm.reopen (Olm.save c2state)).2 = .ok () ∧
      igsPairs (Olm.reopen (Olm.save c2state)).1.inbound_group_sessions = [] :=
  ⟨rfl, rfl, rfl⟩

def c2wsess : Session :=
  ⟨"C2SID", fun _ => false, fun _ => .error .olmSessionError, fun _ => (false, "")⟩

/-- A state whose database reflects its in-memory stores: one pairwise
session with its row, one persisted inbound group session row. -/
def c2wstate : OlmState :=
  { baseState with
    session_store :=
      ⟨[("peerC2", [⟨"@bob:example.org", "BOBDEV", "peerC2", c2wsess⟩])]⟩,
    database :=
      { olmaccount :=
          [("@alice:example.org", ⟨"alice_ed", "alice_curve", ["otk1"]⟩)],
        olmsessions :=
          [⟨"@bob:example.org", "BOBDEV", "peerC2", "C2SID", c2wsess⟩],
        inbound_group_sessions := [⟨"!c2r:x", "C2G", ⟨"C2G", "C2GK"⟩⟩] } }

theorem C2_witness :
    (Olm.reopen (Olm.save c2wstate)).1.account = c2wstate.account ∧
      (("peerC2", "C2SID") ∈
          storePairs (Olm.reopen (Olm.save c2wstate)).1.session_store ↔
        ("peerC2", "C2SID") ∈ dbSessionKeyPairs c2wstate.database) ∧
      (("!c2r:x", "C2G") ∈
          igsPairs (Olm.reopen (Olm.save c2wstate)).1.inbound_group_sessions ↔
        ("!c2r:x", "C2G") ∈ dbGroupPairs c2wstate.database) := by
  have h := C2_save_load_roundtrip c2wstate rfl (fun r hr => by
    have hr2 : r ∈ [(⟨"@bob:example.org", "BOBDEV", "peerC2", "C2SID",
        c2wsess⟩ : SessionRow)] := hr
    rw [List.mem_singleton] at hr2
    subst hr2
    rfl)
  exact ⟨h.2.1, h.2.2.1 _, h.2.2.2.2 _⟩

end NioEnc
